import Mathlib

/-!
Verification of the deduplication state store
(`aggregators/reddit-highlights/src/state_manager.py`).

The Python class `StateManager` is shallowly embedded here:

* JSON documents (the values produced by `json.load` and consumed by
  `json.dump`) are the inductive type `JValue`.
* Python runtime errors that the methods can raise (`KeyError`,
  `TypeError`, `ValueError`, `AttributeError`, `OSError`,
  `json.JSONDecodeError`) are the type `PyErr`; fallible code runs in
  `Except PyErr`.
* Timestamps are natural numbers (microseconds).  `datetime.isoformat` /
  `datetime.fromisoformat` are modelled by a decimal string codec
  (`isoformat` / `parseIso`): the model keeps the two properties the code
  relies on — the codec round-trips, and the string order of freshly
  written timestamps agrees with chronological order (stated explicitly
  as hypotheses where needed).  `datetime.fromisoformat` applied to a
  non-string raises `TypeError`, to an unparseable string `ValueError`,
  exactly as in Python.  (Python additionally accepts offset-aware
  strings, which this file does not model; none of the claims below
  depends on them.)
* `datetime.now()` returns the local wall-clock time; it is modelled as
  the UTC instant plus the environment UTC offset (`datetimeNow`).
* The backing file, the sibling `.json.tmp` temporary file and the
  sibling `.json.corrupted` quarantine file are the three fields of the
  filesystem model `FSModel`.  File bytes are `FileContent`: text that
  parses as a JSON document (`json v`), text that fails JSON parsing
  (`raw s` — `json.load` raises `json.JSONDecodeError`, which
  `_load_state` catches), or bytes that do not even decode as text
  under the default encoding (`undecodable bs` — text-mode `json.load`
  raises `UnicodeDecodeError`, a `ValueError` that is not a
  `JSONDecodeError` and therefore escapes the handler).  `_save_state`
  takes two failure-injection flags standing for an `OSError` during
  the temp-file write and during the rename.

State mutation through `self.state` is single-threaded reference
mutation in Python; it is embedded as explicit state passing (each
method returns the updated document).
-/

namespace DedupStore

/-- JSON-like values, the result type of Python `json.load`.
Object fields are kept in insertion order, duplicate keys do not occur
in `json.load` output (last wins) nor in anything the store writes. -/
inductive JValue where
  | null
  | bool (b : Bool)
  | num (n : Int)
  | str (s : String)
  | arr (elems : List JValue)
  | obj (fields : List (String × JValue))

/-- The Python exception classes the store code can raise. -/
inductive PyErr where
  | keyError (k : String)
  | typeError
  | valueError
  | attributeError
  | osError
  | jsonDecodeError
  | unicodeDecodeError
deriving DecidableEq

/-- First-match association lookup, Python `d[k]` on a dict without
duplicate keys. -/
def lookupField : List (String × JValue) → String → Option JValue
  | [], _ => none
  | (k, v) :: rest, key => if k = key then some v else lookupField rest key

/-- Python `d[k] = v` on a dict: overwrite in place, or append a new key. -/
def setField : List (String × JValue) → String → JValue → List (String × JValue)
  | [], key, v => [(key, v)]
  | (k, w) :: rest, key, v =>
    if k = key then (k, v) :: rest else (k, w) :: setField rest key v

/-- Python subscript `x[k]` with a string key: dict lookup
(`KeyError` when absent), `TypeError` on every other value. -/
def JValue.getItem : JValue → String → Except PyErr JValue
  | .obj fields, k =>
    match lookupField fields k with
    | some v => .ok v
    | none => .error (.keyError k)
  | _, _ => .error .typeError

/-- Python subscript assignment `x[k] = v` with a string key: dict update,
`TypeError` on every other value (lists only take integer indices). -/
def JValue.setItem : JValue → String → JValue → Except PyErr JValue
  | .obj fields, k, v => .ok (.obj (setField fields k v))
  | _, _, _ => .error .typeError

/-- Python substring test `needle in hay` for strings. -/
def strContainsSub (hay needle : String) : Bool :=
  hay.data.tails.any (fun t => needle.data.isPrefixOf t)

/-- Python membership `k in x` for a string `k`: key test on dicts,
element equality on lists, substring test on strings, `TypeError`
otherwise. -/
def JValue.hasKey : JValue → String → Except PyErr Bool
  | .obj fields, k => .ok ((lookupField fields k).isSome)
  | .arr elems, k =>
    .ok (elems.any (fun v => match v with | .str s => s = k | _ => false))
  | .str s, k => .ok (strContainsSub s k)
  | _, _ => .error .typeError

/-- Python iteration `for e in x`: list elements, dict keys, string
characters, `TypeError` otherwise. -/
def JValue.iterElems : JValue → Except PyErr (List JValue)
  | .arr elems => .ok elems
  | .obj fields => .ok (fields.map (fun kv => .str kv.1))
  | .str s => .ok (s.data.map (fun c => .str (String.mk [c])))
  | _ => .error .typeError

/-- Python `len(x)`. -/
def JValue.pyLen : JValue → Except PyErr Nat
  | .arr elems => .ok elems.length
  | .obj fields => .ok fields.length
  | .str s => .ok s.length
  | _ => .error .typeError

/-! ### Timestamp codec

`datetime` values are microseconds since the epoch (`Nat`);
`datetime.isoformat` / `datetime.fromisoformat` become a decimal
encoding with the round-trip property proved below. -/

/-- The character for a decimal digit. -/
def digitChar (d : Nat) : Char := Char.ofNat (48 + d)

/-- Most-significant-first decimal digits of `n`; the first argument is
structural fuel (any fuel at least `n` gives the true digits). -/
def natChars : Nat → Nat → List Char
  | 0, _ => []
  | _ + 1, 0 => []
  | fuel + 1, n + 1 => natChars fuel ((n + 1) / 10) ++ [digitChar ((n + 1) % 10)]

/-- Model of `datetime.isoformat`: the timestamp in decimal. -/
def isoformat (t : Nat) : String :=
  if t = 0 then "0" else String.mk (natChars t t)

/-- Numeric value of a digit character. -/
def charDigit (c : Char) : Nat := c.toNat - 48

/-- Parse a nonempty all-digit character list. -/
def parseDigits (l : List Char) : Option Nat :=
  if l.isEmpty then none
  else if l.all Char.isDigit then
    some (l.foldl (fun a c => a * 10 + charDigit c) 0)
  else none

/-- Model of `datetime.fromisoformat` on strings: `none` is Python
`ValueError`. -/
def parseIso (s : String) : Option Nat := parseDigits s.data

/-- Python `datetime.fromisoformat` applied to an arbitrary value: `TypeError`
unless the argument is a string, `ValueError` on a malformed string. -/
def fromisoformatJ : JValue → Except PyErr Nat
  | .str s =>
    match parseIso s with
    | some t => .ok t
    | none => .error .valueError
  | _ => .error .typeError

/-- Model of `datetime.now()`: the local wall clock, i.e. the current UTC instant
shifted by the environment UTC offset. -/
def datetimeNow (utc tzOffset : Nat) : Nat := utc + tzOffset

/-! ### The StateManager methods -/

/-- The dict `{"posted_guids": [], "last_successful_run": None}` created
by `_ensure_feed_exists`. -/
def emptyFeed : JValue :=
  .obj [("posted_guids", .arr []), ("last_successful_run", .null)]

/-- The dict `{"feeds": {}}` used for a fresh state. -/
def emptyState : JValue := .obj [("feeds", .obj [])]

/-- Embedding of `StateManager._ensure_feed_exists`:
`if feed_url not in self.state["feeds"]: self.state["feeds"][feed_url] = {...}`.
Returns the (possibly) updated `self.state`. -/
def ensureFeedExists (st : JValue) (feed : String) : Except PyErr JValue := do
  let feeds ← st.getItem "feeds"
  let present ← feeds.hasKey feed
  if present then
    pure st
  else do
    let feeds2 ← feeds.setItem feed emptyFeed
    st.setItem "feeds" feeds2

/-- The generator test `any(entry["guid"] == guid for entry in posted_guids)`:
short-circuits on the first match, so a bad entry after a match is never
touched; comparing a non-string against the string `guid` is `False`. -/
def anyGuidEq (guid : String) : List JValue → Except PyErr Bool
  | [] => .ok false
  | e :: rest => do
    let gv ← e.getItem "guid"
    if (match gv with | .str s => s = guid | _ => false : Bool) then
      .ok true
    else
      anyGuidEq guid rest

/-- Embedding of `StateManager.is_posted`: ensure the feed entry exists, then test the
GUID against `posted_guids`.  Returns the updated state together with
the result. -/
def isPosted (st : JValue) (feed guid : String) : Except PyErr (JValue × Bool) := do
  let st1 ← ensureFeedExists st feed
  let feeds ← st1.getItem "feeds"
  let fe ← feeds.getItem feed
  let pg ← fe.getItem "posted_guids"
  let entries ← pg.iterElems
  let b ← anyGuidEq guid entries
  pure (st1, b)

/-- Python computes `cutoff_date = datetime.now() - timedelta(days=self.max_age_days)`,
computed over the integers (Python datetimes may go below the epoch). -/
def microsPerDay : Nat := 86400000000

/-- The age cutoff used by `cleanup_old_entries`. -/
def cutoffOf (now maxAge : Nat) : Int :=
  (now : Int) - (maxAge : Int) * (microsPerDay : Int)

/-- The filter loop of `cleanup_old_entries`: per entry,
`try: posted_at = datetime.fromisoformat(entry["posted_at"])` guarded by
`except (KeyError, ValueError)` — a missing key or malformed string is
skipped, every other error (for example `TypeError` from subscripting a
non-dict entry or from parsing a non-string) propagates; a parsed entry
is kept iff `posted_at > cutoff_date`. -/
def filterLoop (cutoff : Int) : List JValue → Except PyErr (List JValue)
  | [] => .ok []
  | e :: rest =>
    match e.getItem "posted_at" with
    | .error (.keyError _) => filterLoop cutoff rest
    | .error err => .error err
    | .ok v =>
      match fromisoformatJ v with
      | .error .valueError => filterLoop cutoff rest
      | .error err => .error err
      | .ok t =>
        if cutoff < (t : Int) then do
          let r ← filterLoop cutoff rest
          .ok (e :: r)
        else
          filterLoop cutoff rest

/-- The sort key `lambda x: x["posted_at"]`.  Every entry that survives
the filter loop has a string timestamp, so the default branch is never
reached on the lists this is applied to. -/
def entryKey (e : JValue) : String :=
  match e.getItem "posted_at" with
  | .ok (.str s) => s
  | _ => ""

/-- Stable descending insertion: the element goes before the first
strictly smaller key and after every earlier element with an equal or
larger key, preserving the original relative order of equal keys. -/
def insertDesc (x : JValue) : List JValue → List JValue
  | [] => [x]
  | y :: rest =>
    if entryKey y < entryKey x then x :: y :: rest else y :: insertDesc x rest

/-- Model of `filtered.sort(key=lambda x: x["posted_at"], reverse=True)`:
a stable sort, descending by the raw timestamp string.  Python uses a
stable merge sort; since the output of a stable sort is determined
uniquely by the comparator and the input order, the structurally
recursive stable insertion sort below computes the same list. -/
def sortDesc (l : List JValue) : List JValue :=
  l.foldl (fun acc x => insertDesc x acc) []

/-- Embedding of `StateManager.cleanup_old_entries` at local time `now` (the method
reads `datetime.now()` itself): age filter, stable descending sort,
count cap, then write the list back into the state. -/
def cleanupOldEntries (st : JValue) (maxGuids maxAge : Nat) (feed : String)
    (now : Nat) : Except PyErr JValue := do
  let st1 ← ensureFeedExists st feed
  let feeds ← st1.getItem "feeds"
  let fe ← feeds.getItem feed
  let pg ← fe.getItem "posted_guids"
  let entries ← pg.iterElems
  let filtered ← filterLoop (cutoffOf now maxAge) entries
  let kept := (sortDesc filtered).take maxGuids
  let fe2 ← fe.setItem "posted_guids" (.arr kept)
  let feeds2 ← feeds.setItem feed fe2
  st1.setItem "feeds" feeds2

/-- The dict literal appended by `mark_posted`, with
`posted_at = datetime.now().isoformat()`. -/
def mkEntry (guid postUri : String) (now : Nat) : JValue :=
  .obj [("guid", .str guid), ("post_uri", .str postUri),
        ("posted_at", .str (isoformat now))]

/-- Python `posted_guids.append(entry)`: appends on a list, raises
`AttributeError` on anything else. -/
def appendEntry (pg entry : JValue) : Except PyErr JValue :=
  match pg with
  | .arr elems => .ok (.arr (elems ++ [entry]))
  | _ => .error .attributeError

/-- The in-memory part of `StateManager.mark_posted` (everything before
`_save_state`): ensure the feed, append the new entry, clean up.
`datetime.now()` is read twice in the source — once for the entry
(`nowEntry`) and once inside `cleanup_old_entries` (`nowCleanup`). -/
def markPostedState (st : JValue) (maxGuids maxAge : Nat)
    (feed guid postUri : String) (nowEntry nowCleanup : Nat) :
    Except PyErr JValue := do
  let st1 ← ensureFeedExists st feed
  let feeds ← st1.getItem "feeds"
  let fe ← feeds.getItem feed
  let pg ← fe.getItem "posted_guids"
  let pg2 ← appendEntry pg (mkEntry guid postUri nowEntry)
  let fe2 ← fe.setItem "posted_guids" pg2
  let feeds2 ← feeds.setItem feed fe2
  let st2 ← st1.setItem "feeds" feeds2
  cleanupOldEntries st2 maxGuids maxAge feed nowCleanup

/-- Embedding of `StateManager.get_last_run`: ensure the feed, read
`last_successful_run`; `None` maps to `none`, anything else goes through
`datetime.fromisoformat`. -/
def getLastRun (st : JValue) (feed : String) :
    Except PyErr (JValue × Option Nat) := do
  let st1 ← ensureFeedExists st feed
  let feeds ← st1.getItem "feeds"
  let fe ← feeds.getItem feed
  let v ← fe.getItem "last_successful_run"
  match v with
  | .null => pure (st1, none)
  | other => do
    let t ← fromisoformatJ other
    pure (st1, some t)

/-- The in-memory part of `StateManager.update_last_run` (before
`_save_state`). -/
def updateLastRunState (st : JValue) (feed : String) (ts : Nat) :
    Except PyErr JValue := do
  let st1 ← ensureFeedExists st feed
  let feeds ← st1.getItem "feeds"
  let fe ← feeds.getItem feed
  let fe2 ← fe.setItem "last_successful_run" (.str (isoformat ts))
  let feeds2 ← feeds.setItem feed fe2
  st1.setItem "feeds" feeds2

/-- Embedding of `StateManager.get_posted_count`: ensure the feed, then
`len(state["feeds"][feed]["posted_guids"])`. -/
def getPostedCount (st : JValue) (feed : String) :
    Except PyErr (JValue × Nat) := do
  let st1 ← ensureFeedExists st feed
  let feeds ← st1.getItem "feeds"
  let fe ← feeds.getItem feed
  let pg ← fe.getItem "posted_guids"
  let n ← pg.pyLen
  pure (st1, n)

/-! ### Filesystem model and persistence -/

/-- Bytes on disk: text that parses as the JSON document `v`
(`json.dump` output always round-trips), text that decodes but fails
JSON parsing, or bytes that are not decodable text under the default
encoding (for example invalid UTF-8), carried as raw byte values. -/
inductive FileContent where
  | json (v : JValue)
  | raw (bytes : String)
  | undecodable (bytes : List Nat)

/-- The three paths the store touches: the state file, the sibling
`.json.tmp` path and the sibling `.json.corrupted` quarantine path.
`none` means the path does not exist. -/
structure FSModel where
  stateFile : Option FileContent
  tempFile : Option FileContent
  corruptedFile : Option FileContent

/-- Behavior of `json.load` on a file body opened in text mode:
unparseable text raises `json.JSONDecodeError`; bytes that the text
decoder rejects raise `UnicodeDecodeError` instead. -/
def jsonLoad : FileContent → Except PyErr JValue
  | .json v => .ok v
  | .raw _ => .error .jsonDecodeError
  | .undecodable _ => .error .unicodeDecodeError

/-- Embedding of `StateManager._save_state`: write the serialized document to the
temp path, then rename it onto the state file.  The two flags inject an
`OSError` into the write and into the rename; on either failure the
temp artifact is removed and the error is re-raised, leaving the state
file untouched. -/
def saveState (fs : FSModel) (st : JValue) (failWrite failRename : Bool) :
    Except PyErr Unit × FSModel :=
  if failWrite then
    (.error .osError, { fs with tempFile := none })
  else if failRename then
    (.error .osError, { fs with tempFile := none })
  else
    (.ok (), { fs with stateFile := some (.json st), tempFile := none })

/-- Embedding of `StateManager._load_state` (run from `__init__`, no failure
injection on this path): absent file — create, persist and return the
empty state; `json.JSONDecodeError` — quarantine the bytes at the
sibling path, persist and return the empty state; parse success — use
the document as-is.  The source catches only `json.JSONDecodeError`
(line 59), so any other error raised by `json.load` — in particular the
`UnicodeDecodeError` from undecodable bytes — propagates out of the
constructor. -/
def loadState (fs : FSModel) : Except PyErr (JValue × FSModel) :=
  match fs.stateFile with
  | none =>
    let r := saveState fs emptyState false false
    .ok (emptyState, r.2)
  | some content =>
    match jsonLoad content with
    | .ok st => .ok (st, fs)
    | .error .jsonDecodeError =>
      let fs1 := { fs with corruptedFile := some content }
      let r := saveState fs1 emptyState false false
      .ok (emptyState, r.2)
    | .error e => .error e

/-- Embedding of `StateManager.__init__`: load (or create) the backing document. -/
def openStore (fs : FSModel) : Except PyErr (JValue × FSModel) := loadState fs

/-- Full `StateManager.mark_posted`: in-memory update followed by
`_save_state`.  Returns the outcome together with the filesystem; on a
persistence failure the in-memory change is not durable. -/
def markPosted (st : JValue) (fs : FSModel) (maxGuids maxAge : Nat)
    (feed guid postUri : String) (nowEntry nowCleanup : Nat)
    (failWrite failRename : Bool) : Except PyErr JValue × FSModel :=
  match markPostedState st maxGuids maxAge feed guid postUri nowEntry nowCleanup with
  | .error e => (.error e, fs)
  | .ok st2 =>
    match saveState fs st2 failWrite failRename with
    | (.ok _, fs2) => (.ok st2, fs2)
    | (.error e, fs2) => (.error e, fs2)

/-! ### Shape predicates and accessors -/

/-- The records list of a feed, when the document has the expected shape
around that feed; `none` otherwise. -/
def feedRecords (st : JValue) (feed : String) : Option (List JValue) :=
  match st with
  | .obj fs =>
    match lookupField fs "feeds" with
    | some (.obj feeds) =>
      match lookupField feeds feed with
      | some (.obj fe) =>
        match lookupField fe "posted_guids" with
        | some (.arr es) => some es
        | _ => none
      | _ => none
    | _ => none
  | _ => none

/-- A record of the shape the store itself writes: a dict whose
`guid` and `posted_at` values are strings. -/
def wfEntry (e : JValue) : Bool :=
  match e with
  | .obj fields =>
    (match lookupField fields "guid" with
     | some (.str _) => true
     | _ => false) &&
    (match lookupField fields "posted_at" with
     | some (.str _) => true
     | _ => false)
  | _ => false

/-- A `last_successful_run` value the store itself writes: `None` or a
parseable timestamp string. -/
def wfLastRun : Option JValue → Bool
  | some .null => true
  | some (.str s) => (parseIso s).isSome
  | _ => false

/-- A feed entry of the expected shape. -/
def wfFeed (v : JValue) : Bool :=
  match v with
  | .obj fields =>
    (match lookupField fields "posted_guids" with
     | some (.arr es) => es.all wfEntry
     | _ => false) &&
    wfLastRun (lookupField fields "last_successful_run")
  | _ => false

/-- A document of the expected top-level shape: a dict with a `feeds`
dict all of whose values are well-formed feed entries. -/
def wfState (st : JValue) : Bool :=
  match st with
  | .obj fs =>
    match lookupField fs "feeds" with
    | some (.obj feeds) => feeds.all (fun kv => wfFeed kv.2)
    | _ => false
  | _ => false

/-- A record carries a parseable timestamp. -/
def hasParseableTs (e : JValue) : Bool :=
  match e.getItem "posted_at" with
  | .ok (.str s) => (parseIso s).isSome
  | _ => false

/-- A record is a dict whose `posted_at`, when present, is a string:
exactly the records on which the cleanup filter cannot raise. -/
def entrySafeTs (e : JValue) : Bool :=
  match e with
  | .obj fields =>
    (match lookupField fields "posted_at" with
     | some (.str _) => true
     | none => true
     | _ => false)
  | _ => false

/-- The predicate the cleanup age filter keeps: a parseable timestamp
strictly newer than the cutoff. -/
def keptByAge (cutoff : Int) (e : JValue) : Bool :=
  match e.getItem "posted_at" with
  | .ok v =>
    match fromisoformatJ v with
    | .ok t => decide (cutoff < (t : Int))
    | _ => false
  | _ => false

/-! ### Timestamp codec lemmas -/

theorem charDigit_digitChar : ∀ d, d < 10 → charDigit (digitChar d) = d := by
  decide

theorem isDigit_digitChar : ∀ d, d < 10 → (digitChar d).isDigit = true := by
  decide

theorem natChars_digits :
    ∀ (fuel n : Nat), ∀ c ∈ natChars fuel n, c.isDigit = true := by
  intro fuel
  induction fuel with
  | zero => intro n c hc; simp [natChars] at hc
  | succ fuel ih =>
    intro n c hc
    match n with
    | 0 => simp [natChars] at hc
    | m + 1 =>
      rw [natChars] at hc
      rcases List.mem_append.mp hc with h | h
      · exact ih _ _ h
      · have : c = digitChar ((m + 1) % 10) := by simpa using h
        subst this
        exact isDigit_digitChar _ (Nat.mod_lt _ (by omega))

theorem natChars_ne_nil :
    ∀ (fuel n : Nat), 0 < n → n ≤ fuel → natChars fuel n ≠ [] := by
  intro fuel n h1 h2
  match fuel, n with
  | 0, n => exact absurd (Nat.lt_of_lt_of_le h1 h2) (lt_irrefl 0)
  | fuel + 1, 0 => exact absurd h1 (lt_irrefl 0)
  | fuel + 1, m + 1 => rw [natChars]; simp

theorem natChars_foldl :
    ∀ (fuel n : Nat), n ≤ fuel → ∀ acc,
      (natChars fuel n).foldl (fun a c => a * 10 + charDigit c) acc
        = acc * 10 ^ (natChars fuel n).length + n := by
  intro fuel
  induction fuel with
  | zero =>
    intro n hn acc
    interval_cases n
    simp [natChars]
  | succ fuel ih =>
    intro n hn acc
    match n with
    | 0 => simp [natChars]
    | m + 1 =>
      rw [natChars, List.foldl_append]
      have hq : (m + 1) / 10 ≤ fuel := by
        have := Nat.div_lt_self (Nat.succ_pos m) (show 1 < 10 by omega)
        omega
      rw [ih _ hq acc]
      have hr : charDigit (digitChar ((m + 1) % 10)) = (m + 1) % 10 :=
        charDigit_digitChar _ (Nat.mod_lt _ (by omega))
      simp only [List.foldl_cons, List.foldl_nil, List.length_append,
        List.length_cons, List.length_nil, hr]
      have key : ∀ A : Nat, (A + (m + 1) / 10) * 10 + (m + 1) % 10 = A * 10 + (m + 1) := by
        intro A; omega
      calc (acc * 10 ^ (natChars fuel ((m + 1) / 10)).length + (m + 1) / 10) * 10
            + (m + 1) % 10
          = acc * 10 ^ (natChars fuel ((m + 1) / 10)).length * 10 + (m + 1) := key _
        _ = acc * 10 ^ ((natChars fuel ((m + 1) / 10)).length + (0 + 1))
            + (m + 1) := by rw [pow_succ]; ring_nf

/-- The codec round-trips: a freshly written timestamp string parses
back to the timestamp. -/
theorem parseIso_isoformat (t : Nat) : parseIso (isoformat t) = some t := by
  by_cases h : t = 0
  · subst h; decide
  · have ht : 0 < t := Nat.pos_of_ne_zero h
    have hne := natChars_ne_nil t t ht le_rfl
    show parseDigits (isoformat t).data = some t
    have hdata : (isoformat t).data = natChars t t := by
      simp [isoformat, h]
    rw [hdata]
    unfold parseDigits
    rw [if_neg (by simpa [List.isEmpty_iff] using hne)]
    rw [if_pos (List.all_eq_true.mpr (fun c hc => natChars_digits t t c hc))]
    rw [natChars_foldl t t le_rfl 0]
    simp

theorem isoformat_inj {a b : Nat} (h : isoformat a = isoformat b) : a = b := by
  have ha := parseIso_isoformat a
  rw [h, parseIso_isoformat b] at ha
  exact (Option.some.inj ha).symm

/-- The string order is the order of the character lists; stated
explicitly so concrete comparisons can be decided through the
structurally recursive list order. -/
theorem string_lt_of_data_lt {s t : String} (h : s.toList < t.toList) : s < t :=
  String.lt_iff_toList_lt.mpr h

/-! ### Association list lemmas -/

theorem lookupField_setField_self (l : List (String × JValue)) (k : String) (v : JValue) :
    lookupField (setField l k v) k = some v := by
  induction l with
  | nil => simp [setField, lookupField]
  | cons kv rest ih =>
    obtain ⟨k1, v1⟩ := kv
    by_cases h : k1 = k
    · simp [setField, lookupField, h]
    · simp [setField, lookupField, h, ih]

theorem lookupField_setField_ne :
    ∀ (l : List (String × JValue)) (k k2 : String) (v : JValue),
      k2 ≠ k → lookupField (setField l k v) k2 = lookupField l k2
  | [], k, k2, v, h => by
    simp only [setField, lookupField]
    rw [if_neg (Ne.symm h)]
  | (k1, v1) :: rest, k, k2, v, h => by
    by_cases h1 : k1 = k
    · simp only [setField, if_pos h1, lookupField]
      have hne : ¬ (k1 = k2) := fun hh => h (hh.symm.trans h1)
      rw [if_neg hne, if_neg hne]
    · simp only [setField, if_neg h1, lookupField]
      by_cases h2 : k1 = k2
      · rw [if_pos h2, if_pos h2]
      · rw [if_neg h2, if_neg h2]
        exact lookupField_setField_ne rest k k2 v h

theorem mem_setField :
    ∀ (l : List (String × JValue)) (k : String) (v : JValue)
      (kv : String × JValue), kv ∈ setField l k v → kv ∈ l ∨ kv = (k, v)
  | [], k, v, kv, h => Or.inr (by simpa [setField] using h)
  | (k1, v1) :: rest, k, v, kv, h => by
    by_cases h1 : k1 = k
    · simp only [setField, if_pos h1, List.mem_cons] at h
      rcases h with h | h
      · right; rw [h, h1]
      · left; exact List.mem_cons_of_mem _ h
    · simp only [setField, if_neg h1, List.mem_cons] at h
      rcases h with h | h
      · left; simp [h]
      · rcases mem_setField rest k v kv h with h2 | h2
        · left; exact List.mem_cons_of_mem _ h2
        · right; exact h2

/-! ### Sort lemmas

`sortDesc` is `list.sort(key=..., reverse=True)`: a stable merge sort,
descending by timestamp string. -/

theorem insertDesc_perm (x : JValue) :
    ∀ (l : List JValue), List.Perm (insertDesc x l) (x :: l)
  | [] => List.Perm.refl _
  | y :: rest => by
    unfold insertDesc
    by_cases h : entryKey y < entryKey x
    · rw [if_pos h]
    · rw [if_neg h]
      exact ((insertDesc_perm x rest).cons y).trans (List.Perm.swap x y rest)

theorem insertDesc_pairwise (x : JValue) :
    ∀ {l : List JValue},
      l.Pairwise (fun a b => entryKey b ≤ entryKey a) →
      (insertDesc x l).Pairwise (fun a b => entryKey b ≤ entryKey a)
  | [], _ => by simp [insertDesc]
  | y :: rest, h => by
    obtain ⟨hy, hrest⟩ := List.pairwise_cons.mp h
    unfold insertDesc
    by_cases hxy : entryKey y < entryKey x
    · rw [if_pos hxy]
      refine List.pairwise_cons.mpr ⟨?_, h⟩
      intro z hz
      rcases List.mem_cons.mp hz with hz | hz
      · rw [hz]; exact le_of_lt hxy
      · exact le_trans (hy z hz) (le_of_lt hxy)
    · rw [if_neg hxy]
      refine List.pairwise_cons.mpr ⟨?_, insertDesc_pairwise x hrest⟩
      intro z hz
      have hz2 : z ∈ x :: rest := (insertDesc_perm x rest).mem_iff.mp hz
      rcases List.mem_cons.mp hz2 with hz2 | hz2
      · rw [hz2]; exact le_of_not_lt hxy
      · exact hy z hz2

theorem foldl_insertDesc_perm :
    ∀ (l acc : List JValue),
      List.Perm (l.foldl (fun acc x => insertDesc x acc) acc) (acc ++ l)
  | [], acc => by simp
  | x :: rest, acc => by
    simp only [List.foldl_cons]
    refine (foldl_insertDesc_perm rest (insertDesc x acc)).trans ?_
    refine (List.Perm.append_right rest (insertDesc_perm x acc)).trans ?_
    exact (List.perm_middle).symm

theorem foldl_insertDesc_pairwise :
    ∀ (l acc : List JValue),
      acc.Pairwise (fun a b => entryKey b ≤ entryKey a) →
      (l.foldl (fun acc x => insertDesc x acc) acc).Pairwise
        (fun a b => entryKey b ≤ entryKey a)
  | [], acc, h => h
  | x :: rest, acc, h => by
    simp only [List.foldl_cons]
    exact foldl_insertDesc_pairwise rest (insertDesc x acc)
      (insertDesc_pairwise x h)

theorem sortDesc_perm (l : List JValue) : List.Perm (sortDesc l) l :=
  foldl_insertDesc_perm l []

theorem mem_sortDesc {a : JValue} {l : List JValue} : a ∈ sortDesc l ↔ a ∈ l :=
  (sortDesc_perm l).mem_iff

theorem sortDesc_pairwise (l : List JValue) :
    (sortDesc l).Pairwise (fun a b => entryKey b ≤ entryKey a) :=
  foldl_insertDesc_pairwise l [] (List.Pairwise.nil)

/-- When an element strictly dominates every other element of the list
in key order, the descending sort puts it first. -/
theorem sortDesc_head {l : List JValue} {x : JValue} (hx : x ∈ l)
    (hmax : ∀ y ∈ l, y ≠ x → entryKey y < entryKey x) :
    ∃ rest, sortDesc l = x :: rest := by
  have hxs : x ∈ sortDesc l := mem_sortDesc.mpr hx
  match hsd : sortDesc l with
  | [] => rw [hsd] at hxs; cases hxs
  | h :: t =>
    by_cases hhx : h = x
    · subst hhx; exact ⟨t, rfl⟩
    · rw [hsd] at hxs
      have hxt : x ∈ t := by
        rcases List.mem_cons.mp hxs with h1 | h1
        · exact absurd h1.symm hhx
        · exact h1
      have hp := sortDesc_pairwise l
      rw [hsd] at hp
      have hle : entryKey x ≤ entryKey h := (List.pairwise_cons.mp hp).1 x hxt
      have hhl : h ∈ l := by
        have hmem : h ∈ sortDesc l := by rw [hsd]; exact List.mem_cons_self h t
        exact mem_sortDesc.mp hmem
      have hlt : entryKey h < entryKey x := hmax h hhl hhx
      exact absurd (lt_of_le_of_lt hle hlt) (lt_irrefl _)

/-- A strictly descending list is the unique sorted arrangement of its
elements, so sorting any permutation of it returns it. -/
theorem sortDesc_strict_unique {l m : List JValue}
    (hperm : List.Perm l m)
    (hm : m.Pairwise (fun a b => entryKey b < entryKey a)) :
    sortDesc l = m := by
  haveI : IsAntisymm JValue (fun a b => entryKey b < entryKey a) :=
    ⟨fun a b h1 h2 => absurd (lt_trans h1 h2) (lt_irrefl _)⟩
  apply List.eq_of_perm_of_sorted ((sortDesc_perm l).trans hperm) ?_ hm
  have hmnd : (m.map entryKey).Nodup := by
    show (m.map entryKey).Pairwise (fun a b => a ≠ b)
    rw [List.pairwise_map]
    exact hm.imp (fun h => ne_of_gt h)
  have hnd : ((sortDesc l).map entryKey).Nodup := by
    have hp : List.Perm ((sortDesc l).map entryKey) (m.map entryKey) :=
      ((sortDesc_perm l).trans hperm).map entryKey
    exact hp.nodup_iff.mpr hmnd
  have hne : (sortDesc l).Pairwise (fun a b => entryKey a ≠ entryKey b) :=
    List.pairwise_map.mp
      (show ((sortDesc l).map entryKey).Pairwise (fun a b => a ≠ b) from hnd)
  exact ((sortDesc_pairwise l).and hne).imp
    (fun h => lt_of_le_of_ne h.1 (Ne.symm h.2))

/-! ### Except plumbing -/

theorem except_bind_ok {α β : Type} {x : Except PyErr α} {f : α → Except PyErr β}
    {b : β} (h : (x >>= f) = .ok b) : ∃ a, x = .ok a ∧ f a = .ok b := by
  cases x with
  | error e => simp [Bind.bind, Except.bind] at h
  | ok a => exact ⟨a, rfl, by simpa [Bind.bind, Except.bind] using h⟩

theorem except_bind_eq {α β : Type} {x : Except PyErr α} {f : α → Except PyErr β}
    {a : α} (hx : x = .ok a) : (x >>= f) = f a := by
  subst hx; rfl

/-! ### Shape lemmas -/

theorem lookupField_mem :
    ∀ {l : List (String × JValue)} {k : String} {v : JValue},
      lookupField l k = some v → (k, v) ∈ l
  | [], k, v, h => by simp [lookupField] at h
  | (k1, v1) :: rest, k, v, h => by
    by_cases h1 : k1 = k
    · have hsome : some v1 = some v := by rw [← h]; simp [lookupField, h1]
      have hv : v1 = v := Option.some.inj hsome
      subst hv; subst h1
      exact List.mem_cons_self _ _
    · simp only [lookupField, if_neg h1] at h
      exact List.mem_cons_of_mem _ (lookupField_mem h)

theorem wfState_elim {st : JValue} (h : wfState st = true) :
    ∃ fs feeds, st = .obj fs ∧ lookupField fs "feeds" = some (.obj feeds) ∧
      ∀ kv ∈ feeds, wfFeed kv.2 = true := by
  unfold wfState at h
  split at h
  next fs =>
    split at h
    next feeds heq =>
      exact ⟨fs, feeds, rfl, heq, fun kv hkv => List.all_eq_true.mp h kv hkv⟩
    next => cases h
  next => cases h

theorem wfFeed_elim {v : JValue} (h : wfFeed v = true) :
    ∃ fe es, v = .obj fe ∧ lookupField fe "posted_guids" = some (.arr es) ∧
      (∀ e ∈ es, wfEntry e = true) ∧
      wfLastRun (lookupField fe "last_successful_run") = true := by
  unfold wfFeed at h
  split at h
  next fe =>
    rw [Bool.and_eq_true] at h
    obtain ⟨h1, h2⟩ := h
    split at h1
    next es heq =>
      exact ⟨fe, es, rfl, heq, fun e he => List.all_eq_true.mp h1 e he, h2⟩
    next => cases h1
  next => cases h

theorem wfEntry_elim {e : JValue} (h : wfEntry e = true) :
    ∃ fields g p, e = .obj fields ∧
      lookupField fields "guid" = some (.str g) ∧
      lookupField fields "posted_at" = some (.str p) := by
  unfold wfEntry at h
  split at h
  next fields =>
    rw [Bool.and_eq_true] at h
    obtain ⟨h1, h2⟩ := h
    split at h1
    next g heq1 =>
      split at h2
      next p heq2 => exact ⟨fields, g, p, rfl, heq1, heq2⟩
      next => cases h2
    next => cases h1
  next => cases h

/-! ### `_ensure_feed_exists` -/

theorem ensure_present {fs feeds : List (String × JValue)} (feed : String)
    (hf : lookupField fs "feeds" = some (.obj feeds))
    (hp : (lookupField feeds feed).isSome = true) :
    ensureFeedExists (.obj fs) feed = .ok (.obj fs) := by
  unfold ensureFeedExists
  simp [JValue.getItem, hf, JValue.hasKey, hp, Bind.bind, Except.bind, pure,
    Except.pure]

theorem ensure_absent {fs feeds : List (String × JValue)} (feed : String)
    (hf : lookupField fs "feeds" = some (.obj feeds))
    (hp : lookupField feeds feed = none) :
    ensureFeedExists (.obj fs) feed =
      .ok (.obj (setField fs "feeds" (.obj (setField feeds feed emptyFeed)))) := by
  unfold ensureFeedExists
  simp [JValue.getItem, hf, JValue.hasKey, hp, JValue.setItem, Bind.bind,
    Except.bind]

/-- The predicate `wfFeed` holds for the fresh feed entry. -/
theorem wfFeed_emptyFeed : wfFeed emptyFeed = true := by decide

/-- On a well-formed state `_ensure_feed_exists` succeeds and yields a
well-formed state whose requested feed exists; the feed records are the
old ones, or empty when the feed was absent. -/
theorem ensure_shape {st : JValue} (feed : String) (h : wfState st = true) :
    ∃ fsR feedsR feR esR,
      ensureFeedExists st feed = .ok (.obj fsR) ∧
      lookupField fsR "feeds" = some (.obj feedsR) ∧
      lookupField feedsR feed = some (.obj feR) ∧
      lookupField feR "posted_guids" = some (.arr esR) ∧
      (∀ e ∈ esR, wfEntry e = true) ∧
      wfLastRun (lookupField feR "last_successful_run") = true ∧
      wfState (.obj fsR) = true ∧
      esR = (feedRecords st feed).getD [] := by
  obtain ⟨fs, feeds, hst, hf, hfeeds⟩ := wfState_elim h
  subst hst
  cases hlf : lookupField feeds feed with
  | none =>
    refine ⟨setField fs "feeds" (.obj (setField feeds feed emptyFeed)),
      setField feeds feed emptyFeed, [("posted_guids", .arr []),
      ("last_successful_run", .null)], [], ensure_absent feed hf hlf,
      lookupField_setField_self _ _ _, ?_, rfl, ?_, ?_, ?_, ?_⟩
    · rw [lookupField_setField_self]; rfl
    · intro e he; cases he
    · rfl
    · have hself : lookupField (setField fs "feeds"
          (.obj (setField feeds feed emptyFeed))) "feeds"
          = some (.obj (setField feeds feed emptyFeed)) :=
        lookupField_setField_self _ _ _
      simp only [wfState, hself]
      refine List.all_eq_true.mpr (fun kv hkv => ?_)
      rcases mem_setField _ _ _ _ hkv with h2 | h2
      · exact hfeeds kv h2
      · rw [h2]; exact wfFeed_emptyFeed
    · simp [feedRecords, hf, hlf]
  | some fv =>
    have hwfv : wfFeed fv = true := hfeeds (feed, fv) (lookupField_mem hlf)
    obtain ⟨fe, es, hfv, hpg, hes, hlr⟩ := wfFeed_elim hwfv
    subst hfv
    refine ⟨fs, feeds, fe, es,
      ensure_present feed hf (by rw [hlf]; rfl), hf, hlf, hpg, hes, hlr, h, ?_⟩
    simp [feedRecords, hf, hlf, hpg]

/-! ### The cleanup filter loop -/

theorem fromisoformatJ_ok {v : JValue} {t : Nat} (h : fromisoformatJ v = .ok t) :
    ∃ s, v = .str s ∧ parseIso s = some t := by
  unfold fromisoformatJ at h
  split at h
  next s =>
    split at h
    next t2 hp =>
      refine ⟨s, rfl, ?_⟩
      rw [hp]
      exact congrArg some (Except.ok.inj h)
    next => cases h
  next => cases h

theorem hasParseableTs_of_kept {cutoff : Int} {e : JValue}
    (h : keptByAge cutoff e = true) : hasParseableTs e = true := by
  unfold keptByAge at h
  split at h
  next v hv =>
    split at h
    next t hfi =>
      obtain ⟨s, hvs, hp⟩ := fromisoformatJ_ok hfi
      subst hvs
      simp [hasParseableTs, hv, hp]
    next => cases h
  next => cases h

/-- On records that are dicts whose `posted_at` is absent or a string,
the filter loop completes and computes an ordinary list filter. -/
theorem filterLoop_ok_of_safe (cutoff : Int) :
    ∀ (es : List JValue), (∀ e ∈ es, entrySafeTs e = true) →
      filterLoop cutoff es = .ok (es.filter (keptByAge cutoff))
  | [], _ => rfl
  | e :: rest, hsafe => by
    have hs := hsafe e (List.mem_cons_self e rest)
    have ihr := filterLoop_ok_of_safe cutoff rest
      (fun x hx => hsafe x (List.mem_cons_of_mem _ hx))
    unfold entrySafeTs at hs
    split at hs
    next fields =>
      split at hs
      next s hpa =>
        have hget : (JValue.obj fields).getItem "posted_at" = .ok (.str s) := by
          simp [JValue.getItem, hpa]
        cases hp : parseIso s with
        | none =>
          have hkept : keptByAge cutoff (JValue.obj fields) = false := by
            simp [keptByAge, hget, fromisoformatJ, hp]
          simp [filterLoop, hget, fromisoformatJ, hp, List.filter_cons, hkept, ihr]
        | some t =>
          have hkept : keptByAge cutoff (JValue.obj fields)
              = decide (cutoff < (t : Int)) := by
            simp [keptByAge, hget, fromisoformatJ, hp]
          by_cases hcut : cutoff < (t : Int)
          · simp [filterLoop, hget, fromisoformatJ, hp, hcut, List.filter_cons,
              hkept, ihr, Bind.bind, Except.bind]
          · simp [filterLoop, hget, fromisoformatJ, hp, hcut, List.filter_cons,
              hkept, ihr]
      next hpa =>
        have hget : (JValue.obj fields).getItem "posted_at"
            = .error (.keyError "posted_at") := by
          simp [JValue.getItem, hpa]
        have hkept : keptByAge cutoff (JValue.obj fields) = false := by
          simp [keptByAge, hget]
        simp [filterLoop, hget, hkept, List.filter_cons, ihr]
      next => cases hs
    next => cases hs

/-- Whatever the filter loop returns came from the input and passed the
age test. -/
theorem filterLoop_mem (cutoff : Int) :
    ∀ {es l : List JValue}, filterLoop cutoff es = .ok l →
      ∀ x ∈ l, x ∈ es ∧ keptByAge cutoff x = true
  | [], l, h => by
    intro x hx
    simp only [filterLoop, Except.ok.injEq] at h
    subst h
    cases hx
  | e :: rest, l, h => by
    intro x hx
    simp only [filterLoop] at h
    split at h
    · have ih := filterLoop_mem cutoff h x hx
      exact ⟨List.mem_cons_of_mem _ ih.1, ih.2⟩
    · cases h
    · rename_i v hget
      split at h
      · have ih := filterLoop_mem cutoff h x hx
        exact ⟨List.mem_cons_of_mem _ ih.1, ih.2⟩
      · cases h
      · rename_i t hfi
        by_cases hcut : cutoff < (t : Int)
        · rw [if_pos hcut] at h
          obtain ⟨r, hr, hcons⟩ := except_bind_ok h
          have hl : l = e :: r := (Except.ok.inj hcons).symm
          subst hl
          rcases List.mem_cons.mp hx with hxe | hxr
          · subst hxe
            refine ⟨List.mem_cons_self _ _, ?_⟩
            simp [keptByAge, hget, hfi, hcut]
          · have ih := filterLoop_mem cutoff hr x hxr
            exact ⟨List.mem_cons_of_mem _ ih.1, ih.2⟩
        · rw [if_neg hcut] at h
          have ih := filterLoop_mem cutoff h x hx
          exact ⟨List.mem_cons_of_mem _ ih.1, ih.2⟩

/-! ### Characterizing cleanup -/

theorem setItem_ok {v w v2 : JValue} {k : String}
    (h : v.setItem k w = .ok v2) :
    ∃ fields, v = .obj fields ∧ v2 = .obj (setField fields k w) := by
  cases v with
  | obj fields =>
    simp only [JValue.setItem, Except.ok.injEq] at h
    exact ⟨fields, rfl, h.symm⟩
  | null => simp [JValue.setItem] at h
  | bool b => simp [JValue.setItem] at h
  | num n => simp [JValue.setItem] at h
  | str s2 => simp [JValue.setItem] at h
  | arr es => simp [JValue.setItem] at h

theorem feedRecords_set (fs feeds fe : List (String × JValue)) (feed : String)
    (kept : List JValue) :
    feedRecords (.obj (setField fs "feeds" (.obj (setField feeds feed
      (.obj (setField fe "posted_guids" (.arr kept))))))) feed = some kept := by
  simp [feedRecords, lookupField_setField_self]

/-- Explicit form of a successful cleanup on a state whose feed exists
with dict-shaped string-timestamp records. -/
theorem cleanup_records {fs feeds fe : List (String × JValue)} {es : List JValue}
    (feed : String) (maxG maxAge now : Nat)
    (hf : lookupField fs "feeds" = some (.obj feeds))
    (hlf : lookupField feeds feed = some (.obj fe))
    (hpg : lookupField fe "posted_guids" = some (.arr es))
    (hsafe : ∀ e ∈ es, entrySafeTs e = true) :
    cleanupOldEntries (.obj fs) maxG maxAge feed now =
      .ok (.obj (setField fs "feeds" (.obj (setField feeds feed
        (.obj (setField fe "posted_guids"
          (.arr ((sortDesc (es.filter (keptByAge (cutoffOf now maxAge)))).take
            maxG)))))))) := by
  have h1 := ensure_present feed hf (by rw [hlf]; rfl)
  have h2 := filterLoop_ok_of_safe (cutoffOf now maxAge) es hsafe
  simp [cleanupOldEntries, h1, h2, JValue.getItem, hf, hlf, hpg,
    JValue.iterElems, JValue.setItem, Bind.bind, Except.bind]

/-- Success inversion for cleanup: on success the stored records are the
sorted, capped filter output. -/
theorem cleanup_ok_inv {st st2 : JValue} {maxG maxAge now : Nat} {feed : String}
    (h : cleanupOldEntries st maxG maxAge feed now = .ok st2) :
    ∃ entries fl, filterLoop (cutoffOf now maxAge) entries = .ok fl ∧
      feedRecords st2 feed = some ((sortDesc fl).take maxG) := by
  unfold cleanupOldEntries at h
  obtain ⟨st1, h1, h⟩ := except_bind_ok h
  obtain ⟨feeds, h2, h⟩ := except_bind_ok h
  obtain ⟨fe, h3, h⟩ := except_bind_ok h
  obtain ⟨pg, h4, h⟩ := except_bind_ok h
  obtain ⟨entries, h5, h⟩ := except_bind_ok h
  obtain ⟨fl, h6, h⟩ := except_bind_ok h
  obtain ⟨fe2, h7, h⟩ := except_bind_ok h
  obtain ⟨feeds2, h8, h⟩ := except_bind_ok h
  obtain ⟨fef, hfe, hfe2⟩ := setItem_ok h7
  obtain ⟨feedsf, hfeeds, hfeeds2⟩ := setItem_ok h8
  obtain ⟨fs1, hst1, hst2⟩ := setItem_ok h
  refine ⟨entries, fl, h6, ?_⟩
  rw [hst2, hfeeds2, hfe2]
  exact feedRecords_set fs1 feedsf fef feed _

/-! ### More elimination helpers -/

theorem getItem_ok {e v : JValue} {k : String} (h : e.getItem k = .ok v) :
    ∃ fields, e = .obj fields ∧ lookupField fields k = some v := by
  cases e with
  | obj fields =>
    refine ⟨fields, rfl, ?_⟩
    cases hlk : lookupField fields k with
    | none => simp [JValue.getItem, hlk] at h
    | some v2 =>
      simp only [JValue.getItem, hlk] at h
      exact congrArg some (Except.ok.inj h)
  | null => simp [JValue.getItem] at h
  | bool b => simp [JValue.getItem] at h
  | num n => simp [JValue.getItem] at h
  | str s2 => simp [JValue.getItem] at h
  | arr es => simp [JValue.getItem] at h

theorem keptByAge_elim {cutoff : Int} {e : JValue} (h : keptByAge cutoff e = true) :
    ∃ s t, e.getItem "posted_at" = .ok (.str s) ∧ parseIso s = some t ∧
      cutoff < (t : Int) := by
  unfold keptByAge at h
  split at h
  next v hv =>
    split at h
    next t hfi =>
      obtain ⟨s, hvs, hp⟩ := fromisoformatJ_ok hfi
      subst hvs
      exact ⟨s, t, hv, hp, of_decide_eq_true h⟩
    next => cases h
  next => cases h

theorem entrySafeTs_of_wfEntry {e : JValue} (h : wfEntry e = true) :
    entrySafeTs e = true := by
  obtain ⟨fields, g, p, he, hg, hp⟩ := wfEntry_elim h
  subst he
  simp [entrySafeTs, hp]

theorem entrySafeTs_of_kept {cutoff : Int} {e : JValue}
    (h : keptByAge cutoff e = true) : entrySafeTs e = true := by
  obtain ⟨s, t, hget, hp, hc⟩ := keptByAge_elim h
  obtain ⟨fields, he, hlk⟩ := getItem_ok hget
  subst he
  simp [entrySafeTs, hlk]

/-- The timestamp the filter sees on a fresh entry. -/
theorem mkEntry_posted_at (g u : String) (t : Nat) :
    (mkEntry g u t).getItem "posted_at" = .ok (.str (isoformat t)) := by
  simp [mkEntry, JValue.getItem, lookupField]

theorem mkEntry_guid (g u : String) (t : Nat) :
    (mkEntry g u t).getItem "guid" = .ok (.str g) := by
  simp [mkEntry, JValue.getItem, lookupField]

theorem entryKey_mkEntry (g u : String) (t : Nat) :
    entryKey (mkEntry g u t) = isoformat t := by
  simp [entryKey, mkEntry_posted_at]

theorem keptByAge_mkEntry {cutoff : Int} (g u : String) (t : Nat)
    (h : cutoff < (t : Int)) : keptByAge cutoff (mkEntry g u t) = true := by
  simp [keptByAge, mkEntry_posted_at, fromisoformatJ, parseIso_isoformat, h]

theorem wfEntry_mkEntry (g u : String) (t : Nat) : wfEntry (mkEntry g u t) = true := by
  simp [wfEntry, mkEntry, lookupField]

/-! ### C10 -/

/-- A JSON array: parses, loads as-is, every operation raises TypeError. -/
def arrayDoc : JValue := .arr []

/-- A JSON object with no feeds mapping: every operation raises KeyError. -/
def noFeedsDoc : JValue := .obj []

/-- A JSON object whose feeds value is a number: every operation raises
TypeError. -/
def numFeedsDoc : JValue := .obj [("feeds", .num 0)]

/-- C10: backing documents that parse as valid JSON but do not have the
expected top-level shape — a JSON array, an object without a feeds
mapping, or one whose feeds value is not an object — are loaded as-is
(no quarantine, the file is not rewritten), yet every public operation
(isPosted, markPosted, getLastRun, updateLastRun, eviction,
getPostedCount) raises an uncaught error. -/
theorem C10_bad_shape_documents :
    (openStore ⟨some (.json noFeedsDoc), none, none⟩
        = .ok (noFeedsDoc, ⟨some (.json noFeedsDoc), none, none⟩) ∧
      isPosted noFeedsDoc "src" "key" = .error (.keyError "feeds") ∧
      (markPosted noFeedsDoc ⟨some (.json noFeedsDoc), none, none⟩
          100 30 "src" "key" "uri" 0 0 false false).1 = .error (.keyError "feeds") ∧
      getLastRun noFeedsDoc "src" = .error (.keyError "feeds") ∧
      updateLastRunState noFeedsDoc "src" 0 = .error (.keyError "feeds") ∧
      cleanupOldEntries noFeedsDoc 100 30 "src" 0 = .error (.keyError "feeds") ∧
      getPostedCount noFeedsDoc "src" = .error (.keyError "feeds")) ∧
    (openStore ⟨some (.json arrayDoc), none, none⟩
        = .ok (arrayDoc, ⟨some (.json arrayDoc), none, none⟩) ∧
      isPosted arrayDoc "src" "key" = .error .typeError ∧
      (markPosted arrayDoc ⟨some (.json arrayDoc), none, none⟩
          100 30 "src" "key" "uri" 0 0 false false).1 = .error .typeError ∧
      getLastRun arrayDoc "src" = .error .typeError ∧
      updateLastRunState arrayDoc "src" 0 = .error .typeError ∧
      cleanupOldEntries arrayDoc 100 30 "src" 0 = .error .typeError ∧
      getPostedCount arrayDoc "src" = .error .typeError) ∧
    (openStore ⟨some (.json numFeedsDoc), none, none⟩
        = .ok (numFeedsDoc, ⟨some (.json numFeedsDoc), none, none⟩) ∧
      isPosted numFeedsDoc "src" "key" = .error .typeError ∧
      (markPosted numFeedsDoc ⟨some (.json numFeedsDoc), none, none⟩
          100 30 "src" "key" "uri" 0 0 false false).1 = .error .typeError ∧
      getLastRun numFeedsDoc "src" = .error .typeError ∧
      updateLastRunState numFeedsDoc "src" 0 = .error .typeError ∧
      cleanupOldEntries numFeedsDoc 100 30 "src" 0 = .error .typeError ∧
      getPostedCount numFeedsDoc "src" = .error .typeError) :=
  ⟨⟨rfl, rfl, rfl, rfl, rfl, rfl, rfl⟩,
   ⟨rfl, rfl, rfl, rfl, rfl, rfl, rfl⟩,
   ⟨rfl, rfl, rfl, rfl, rfl, rfl, rfl⟩⟩

/-! ### C4 -/

/-- C4 counterexample: a backing file whose bytes are not decodable
text (here the lone byte 255, invalid UTF-8) makes text-mode
`json.load` raise `UnicodeDecodeError`; the handler catches only
`json.JSONDecodeError`, so constructing the store fails because of a
bad backing document — no quarantine copy, no empty state, the error
surfaces to the caller opening the store. -/
theorem C4_counterexample :
    loadState ⟨some (.undecodable [255]), none, none⟩
      = .error .unicodeDecodeError ∧
    openStore ⟨some (.undecodable [255]), none, none⟩
      = .error .unicodeDecodeError :=
  ⟨rfl, rfl⟩

/-- C4 amended: opening the store never fails on an absent or on a
decodable-but-unparseable backing document.  Absent file: the empty
store is initialized and persisted at once.  Text that fails JSON
parsing: the bytes are copied verbatim to the sibling quarantine path,
the store starts empty and no error is surfaced.  But bytes that do
not decode as text raise `UnicodeDecodeError`, which the
`json.JSONDecodeError` handler does not catch, and the constructor
fails.  The empty state counts zero for every source. -/
theorem C4_load_recovery_amended (fs : FSModel) (bytes : String)
    (raw : List Nat) :
    (fs.stateFile = none →
      loadState fs = .ok (emptyState,
        { fs with stateFile := some (.json emptyState), tempFile := none })) ∧
    (fs.stateFile = some (.raw bytes) →
      loadState fs = .ok (emptyState,
        { fs with
            stateFile := some (.json emptyState), tempFile := none,
            corruptedFile := some (.raw bytes) })) ∧
    (fs.stateFile = some (.undecodable raw) →
      loadState fs = .error .unicodeDecodeError) ∧
    (∀ feed, ∃ st2, getPostedCount emptyState feed = .ok (st2, 0)) := by
  obtain ⟨sf, tf, cf⟩ := fs
  refine ⟨?_, ?_, ?_, ?_⟩
  · intro h
    simp only at h
    subst h
    rfl
  · intro h
    simp only at h
    subst h
    rfl
  · intro h
    simp only at h
    subst h
    rfl
  · intro feed
    refine ⟨.obj (setField [("feeds", .obj [])] "feeds"
      (.obj (setField [] feed emptyFeed))), ?_⟩
    simp [getPostedCount, ensureFeedExists, emptyState, JValue.getItem,
      lookupField, JValue.hasKey, JValue.setItem, setField, JValue.pyLen,
      emptyFeed, Bind.bind, Except.bind, pure, Except.pure]

/-- Witness for the amended C4 at concrete inputs. -/
theorem C4_load_recovery_amended_witness :
    loadState ⟨none, none, none⟩
      = .ok (emptyState, ⟨some (.json emptyState), none, none⟩) ∧
    loadState ⟨some (.raw "not json"), none, none⟩
      = .ok (emptyState,
          ⟨some (.json emptyState), none, some (.raw "not json")⟩) ∧
    loadState ⟨some (.undecodable [255]), none, none⟩
      = .error .unicodeDecodeError ∧
    (∃ st2, getPostedCount emptyState "src" = .ok (st2, 0)) := by
  obtain ⟨h1, h2, h3, h4⟩ :=
    C4_load_recovery_amended ⟨some (.raw "not json"), none, none⟩
      "not json" [255]
  obtain ⟨g1, g2, g3, g4⟩ :=
    C4_load_recovery_amended ⟨none, none, none⟩ "x" [255]
  obtain ⟨k1, k2, k3, k4⟩ :=
    C4_load_recovery_amended ⟨some (.undecodable [255]), none, none⟩
      "x" [255]
  exact ⟨g1 rfl, h2 rfl, k3 rfl, g4 "src"⟩

/-! ### C2 -/

/-- C2: every durable save goes through the sibling temp path and one
rename; a successful save installs the serialized document and removes
the temp artifact; if the write or the rename is made to fail, the call
raises OSError, the temp artifact is removed, the previously persisted
document is untouched, and a fresh load still yields the old state.
Through `markPosted`, a failing save propagates the error and leaves
the durable document as it was. -/
theorem C2_atomic_persistence (st : JValue) (fs : FSModel)
    (failWrite failRename : Bool) (maxG maxAge tE tC : Nat)
    (feed guid uri : String) (st2 : JValue) :
    (saveState fs st false false
      = (.ok (), { fs with stateFile := some (.json st), tempFile := none })) ∧
    (failWrite = true ∨ failRename = true →
      ∃ fs2, saveState fs st failWrite failRename = (.error .osError, fs2) ∧
        fs2.tempFile = none ∧ fs2.stateFile = fs.stateFile ∧
        (loadState fs2).map (fun p => p.1) = (loadState fs).map (fun p => p.1)) ∧
    (markPostedState st maxG maxAge feed guid uri tE tC = .ok st2 →
      failWrite = true ∨ failRename = true →
      (markPosted st fs maxG maxAge feed guid uri tE tC failWrite failRename).1
          = .error .osError ∧
      ((markPosted st fs maxG maxAge feed guid uri tE tC failWrite
          failRename).2).stateFile = fs.stateFile) := by
  have hsave : failWrite = true ∨ failRename = true →
      ∀ doc : JValue, saveState fs doc failWrite failRename
        = (.error .osError, { fs with tempFile := none }) := by
    intro h doc
    rcases h with h | h
    · subst h; rfl
    · subst h
      cases failWrite with
      | true => rfl
      | false => rfl
  refine ⟨rfl, ?_, ?_⟩
  · intro h
    refine ⟨{ fs with tempFile := none }, hsave h st, rfl, rfl, ?_⟩
    obtain ⟨sf, tf, cf⟩ := fs
    cases sf with
    | none => rfl
    | some content =>
      cases content with
      | json v => rfl
      | raw b => rfl
      | undecodable bs => rfl
  · intro hmark h
    unfold markPosted
    simp [hmark, hsave h]

/-- The state produced by one mark on the fresh store. -/
def oneMarkState : JValue :=
  .obj [("feeds", .obj [("src", .obj [("posted_guids",
    .arr [mkEntry "key" "uri" 7]), ("last_successful_run", .null)])])]

/-- Witness for C2 at concrete inputs. -/
theorem C2_atomic_persistence_witness :
    (saveState ⟨some (.json emptyState), none, none⟩ (.obj []) false false
      = (.ok (), ⟨some (.json (.obj [])), none, none⟩)) ∧
    (∃ fs2, saveState ⟨some (.json emptyState), none, none⟩ (.obj []) false true
        = (.error .osError, fs2) ∧
      fs2.tempFile = none ∧
      fs2.stateFile = some (.json emptyState) ∧
      (loadState fs2).map (fun p => p.1) = .ok emptyState) ∧
    ((markPosted emptyState ⟨some (.json emptyState), none, none⟩
        100 30 "src" "key" "uri" 7 7 false true).1 = .error .osError ∧
      ((markPosted emptyState ⟨some (.json emptyState), none, none⟩
        100 30 "src" "key" "uri" 7 7 false true).2).stateFile
        = some (.json emptyState)) := by
  obtain ⟨h1, h2, h3⟩ := C2_atomic_persistence (.obj [])
    ⟨some (.json emptyState), none, none⟩ false true 100 30 7 7
    "src" "key" "uri" (.obj [])
  obtain ⟨g1, g2, g3⟩ := C2_atomic_persistence emptyState
    ⟨some (.json emptyState), none, none⟩ false true 100 30 7 7
    "src" "key" "uri" oneMarkState
  refine ⟨h1, ?_, g3 rfl (Or.inr rfl)⟩
  obtain ⟨fs2, hfs2, ht, hs, hl⟩ := h2 (Or.inr rfl)
  exact ⟨fs2, hfs2, ht, hs, by rw [hl]; rfl⟩

/-! ### Read and mark characterizations on shaped states -/

/-- Unfolding of `mark_posted` before its save: append the fresh entry, then clean
up.  Stated against the state `_ensure_feed_exists` produced. -/
theorem markPostedState_explicit {st : JValue}
    {fsR feedsR feR : List (String × JValue)} {es : List JValue}
    (feed guid uri : String) (maxG maxAge tE tC : Nat)
    (hens : ensureFeedExists st feed = .ok (.obj fsR))
    (hf : lookupField fsR "feeds" = some (.obj feedsR))
    (hlf : lookupField feedsR feed = some (.obj feR))
    (hpg : lookupField feR "posted_guids" = some (.arr es)) :
    markPostedState st maxG maxAge feed guid uri tE tC =
      cleanupOldEntries (.obj (setField fsR "feeds" (.obj (setField feedsR feed
        (.obj (setField feR "posted_guids"
          (.arr (es ++ [mkEntry guid uri tE]))))))))
        maxG maxAge feed tC := by
  unfold markPostedState
  rw [hens]
  simp [JValue.getItem, hf, hlf, hpg, JValue.setItem, appendEntry, Bind.bind,
    Except.bind, pure, Except.pure]

/-- The membership generator never raises over well-formed records. -/
theorem anyGuidEq_ok (guid : String) :
    ∀ {es : List JValue}, (∀ e ∈ es, wfEntry e = true) →
      ∃ b, anyGuidEq guid es = .ok b
  | [], _ => ⟨false, rfl⟩
  | e :: rest, h => by
    obtain ⟨fields, g, p, he, hg, hp⟩ :=
      wfEntry_elim (h e (List.mem_cons_self e rest))
    subst he
    by_cases hgg : g = guid
    · exact ⟨true, by simp [anyGuidEq, JValue.getItem, hg, hgg, Bind.bind,
        Except.bind]⟩
    · obtain ⟨b, hb⟩ := anyGuidEq_ok guid
        (fun x hx => h x (List.mem_cons_of_mem _ hx))
      exact ⟨b, by simp [anyGuidEq, JValue.getItem, hg, hgg, hb, Bind.bind,
        Except.bind]⟩

/-- Evaluation of `is_posted` on a shaped post-ensure state. -/
theorem isPosted_shape {fsR feedsR feR : List (String × JValue)} {es : List JValue}
    {st : JValue} (feed guid : String)
    (hens : ensureFeedExists st feed = .ok (.obj fsR))
    (hf : lookupField fsR "feeds" = some (.obj feedsR))
    (hlf : lookupField feedsR feed = some (.obj feR))
    (hpg : lookupField feR "posted_guids" = some (.arr es))
    {b : Bool} (hany : anyGuidEq guid es = .ok b) :
    isPosted st feed guid = .ok (.obj fsR, b) := by
  unfold isPosted
  rw [hens]
  simp [JValue.getItem, hf, hlf, hpg, JValue.iterElems, hany, Bind.bind,
    Except.bind, pure, Except.pure]

/-- Evaluation of `get_last_run` on a shaped post-ensure state with a well-formed
last-run value. -/
theorem getLastRun_shape {fsR feedsR feR : List (String × JValue)}
    {st : JValue} (feed : String)
    (hens : ensureFeedExists st feed = .ok (.obj fsR))
    (hf : lookupField fsR "feeds" = some (.obj feedsR))
    (hlf : lookupField feedsR feed = some (.obj feR))
    (hlr : wfLastRun (lookupField feR "last_successful_run") = true) :
    ∃ r, getLastRun st feed = .ok (.obj fsR, r) ∧
      (lookupField feR "last_successful_run" = some .null → r = none) := by
  cases hv : lookupField feR "last_successful_run" with
  | none => rw [hv] at hlr; cases hlr
  | some v =>
    cases v with
    | null =>
      refine ⟨none, ?_, fun _ => rfl⟩
      unfold getLastRun
      rw [hens]
      simp [JValue.getItem, hf, hlf, hv, Bind.bind, Except.bind, pure,
        Except.pure]
    | str s2 =>
      rw [hv] at hlr
      simp only [wfLastRun] at hlr
      obtain ⟨t, ht⟩ := Option.isSome_iff_exists.mp hlr
      refine ⟨some t, ?_, fun hc => by simp at hc⟩
      unfold getLastRun
      rw [hens]
      simp [JValue.getItem, hf, hlf, hv, fromisoformatJ, ht, Bind.bind,
        Except.bind, pure, Except.pure]
    | bool b => rw [hv] at hlr; cases hlr
    | num n => rw [hv] at hlr; cases hlr
    | arr es => rw [hv] at hlr; cases hlr
    | obj fields => rw [hv] at hlr; cases hlr

/-! ### C9 -/

/-- C9 counterexample: with UTC instant 0 and a UTC offset of 60, the
recorded postedAt serializes the local time 60, not the UTC instant:
the stored string differs from the UTC representation. -/
theorem C9_counterexample :
    (∃ st2, markPostedState emptyState 100 30 "src" "key" "uri"
        (datetimeNow 0 60) (datetimeNow 0 60) = .ok st2 ∧
      feedRecords st2 "src" = some [mkEntry "key" "uri" (datetimeNow 0 60)]) ∧
    (mkEntry "key" "uri" (datetimeNow 0 60)).getItem "posted_at"
        = .ok (.str (isoformat 60)) ∧
    isoformat 60 ≠ isoformat 0 := by
  refine ⟨⟨_, rfl, rfl⟩, rfl, ?_⟩
  decide

/-- C9 amended: the record appended by markPosted stores
`datetime.now()` — the local wall clock, the UTC instant plus the
environment offset — as a naive string; it equals the UTC
representation exactly when the offset is zero. -/
theorem C9_local_time_amended (utc off tC : Nat) (st : JValue)
    (fsR feedsR feR : List (String × JValue)) (es : List JValue)
    (maxG maxAge : Nat) (feed guid uri : String)
    (hens : ensureFeedExists st feed = .ok (.obj fsR))
    (hf : lookupField fsR "feeds" = some (.obj feedsR))
    (hlf : lookupField feedsR feed = some (.obj feR))
    (hpg : lookupField feR "posted_guids" = some (.arr es)) :
    markPostedState st maxG maxAge feed guid uri (datetimeNow utc off) tC =
      cleanupOldEntries (.obj (setField fsR "feeds" (.obj (setField feedsR feed
        (.obj (setField feR "posted_guids"
          (.arr (es ++ [mkEntry guid uri (datetimeNow utc off)]))))))))
        maxG maxAge feed tC ∧
    (mkEntry guid uri (datetimeNow utc off)).getItem "posted_at"
        = .ok (.str (isoformat (utc + off))) ∧
    (isoformat (utc + off) = isoformat utc ↔ off = 0) := by
  refine ⟨markPostedState_explicit feed guid uri maxG maxAge
      (datetimeNow utc off) tC hens hf hlf hpg,
    mkEntry_posted_at guid uri (datetimeNow utc off), ?_, ?_⟩
  · intro h
    have := isoformat_inj h
    omega
  · intro h
    subst h
    rfl

/-- Witness for the amended C9 at concrete inputs. -/
theorem C9_local_time_amended_witness :
    markPostedState (.obj [("feeds", .obj [("src", emptyFeed)])])
        100 30 "src" "key" "uri" (datetimeNow 3 4) 9 =
      cleanupOldEntries (.obj (setField [("feeds", .obj [("src", emptyFeed)])]
        "feeds" (.obj (setField [("src", emptyFeed)] "src"
        (.obj (setField [("posted_guids", .arr []),
          ("last_successful_run", .null)] "posted_guids"
          (.arr ([] ++ [mkEntry "key" "uri" (datetimeNow 3 4)]))))))))
        100 30 "src" 9 ∧
    (mkEntry "key" "uri" (datetimeNow 3 4)).getItem "posted_at"
        = .ok (.str (isoformat (3 + 4))) ∧
    (isoformat (3 + 4) = isoformat 3 ↔ (4 : Nat) = 0) := by
  exact C9_local_time_amended 3 4 9 (.obj [("feeds", .obj [("src", emptyFeed)])])
    [("feeds", .obj [("src", emptyFeed)])] [("src", emptyFeed)]
    [("posted_guids", .arr []), ("last_successful_run", .null)] []
    100 30 "src" "key" "uri" (by rfl) (by rfl) (by rfl) (by rfl)

/-! ### C7 -/

/-- The in-memory state after a read touched the absent source "a" on
the fresh store. -/
def stWithA : JValue := .obj [("feeds", .obj [("a", emptyFeed)])]

/-- C7 counterexample: on the fresh empty store, isPosted and getLastRun
on the absent source "a" do return false and none, but they mutate the
in-memory document: an empty source entry appears (`_ensure_feed_exists`
runs inside both reads). -/
theorem C7_counterexample :
    isPosted emptyState "a" "k" = .ok (stWithA, false) ∧
    getLastRun emptyState "a" = .ok (stWithA, none) ∧
    stWithA ≠ emptyState := by
  refine ⟨rfl, rfl, ?_⟩
  intro h
  simp [stWithA, emptyState, emptyFeed] at h

/-- C7 amended: isPosted and getLastRun never touch the persisted
document (they never call `_save_state`; in this embedding they take no
filesystem argument at all) and yield false respectively none for an
absent source, but they are not pure on the in-memory document: for an
absent source both insert an empty source entry, and that is the only
change they make. -/
theorem C7_reads_amended (st : JValue) (feed guid : String)
    (h : wfState st = true) :
    ∃ st2, (∃ b, isPosted st feed guid = .ok (st2, b)) ∧
      (∃ r, getLastRun st feed = .ok (st2, r)) ∧
      wfState st2 = true ∧
      ((feedRecords st feed).isSome → st2 = st) ∧
      (feedRecords st feed = none →
        isPosted st feed guid = .ok (st2, false) ∧
        getLastRun st feed = .ok (st2, none) ∧
        ∃ fs feeds, st = .obj fs ∧
          lookupField fs "feeds" = some (.obj feeds) ∧
          lookupField feeds feed = none ∧
          st2 = .obj (setField fs "feeds"
            (.obj (setField feeds feed emptyFeed)))) := by
  obtain ⟨fs, feeds, hst, hfe, hfeeds⟩ := wfState_elim h
  obtain ⟨fsR, feedsR, feR, esR, hens, hf, hlf, hpg, hes, hlr, hwf2, hrec⟩ :=
    ensure_shape feed h
  obtain ⟨b, hany⟩ := anyGuidEq_ok guid hes
  have hip := isPosted_shape feed guid hens hf hlf hpg hany
  obtain ⟨r, hglr, hrnull⟩ := getLastRun_shape feed hens hf hlf hlr
  subst hst
  refine ⟨.obj fsR, ⟨b, hip⟩, ⟨r, hglr⟩, hwf2, ?_, ?_⟩
  · intro hsome
    cases hpres : lookupField feeds feed with
    | none =>
      rw [show feedRecords (JValue.obj fs) feed = none from by
        simp [feedRecords, hfe, hpres]] at hsome
      cases hsome
    | some fv =>
      have heq := (ensure_present feed hfe (by rw [hpres]; rfl)).symm.trans hens
      exact congrArg JValue.obj (JValue.obj.inj (Except.ok.inj heq)).symm
  · intro hnone
    cases hpres : lookupField feeds feed with
    | some fv =>
      have hwfv : wfFeed fv = true := hfeeds (feed, fv) (lookupField_mem hpres)
      obtain ⟨fe2, es2, hfv, hpg2, _, _⟩ := wfFeed_elim hwfv
      subst hfv
      rw [show feedRecords (JValue.obj fs) feed = some es2 from by
        simp [feedRecords, hfe, hpres, hpg2]] at hnone
      cases hnone
    | none =>
      have heq := (ensure_absent feed hfe hpres).symm.trans hens
      have hfsR : fsR = setField fs "feeds"
          (.obj (setField feeds feed emptyFeed)) :=
        (JValue.obj.inj (Except.ok.inj heq)).symm
      have hesR : esR = [] := by
        rw [hrec]
        simp [feedRecords, hfe, hpres]
      have hbf : b = false := by
        rw [hesR] at hany
        exact (Except.ok.inj hany).symm
      have hrn : r = none := by
        apply hrnull
        rw [hfsR] at hf
        rw [lookupField_setField_self] at hf
        have hfeedsR : feedsR = setField feeds feed emptyFeed :=
          (JValue.obj.inj (Option.some.inj hf)).symm
        rw [hfeedsR] at hlf
        rw [lookupField_setField_self] at hlf
        have hfeR : feR = [("posted_guids", .arr []),
            ("last_successful_run", .null)] := by
          have := Option.some.inj hlf
          exact (JValue.obj.inj this).symm
        rw [hfeR]
        rfl
      refine ⟨by rw [← hbf]; exact hip, by rw [← hrn]; exact hglr,
        fs, feeds, rfl, hfe, hpres, by rw [hfsR]⟩

/-- Witness for the amended C7 at concrete inputs. -/
theorem C7_reads_amended_witness :
    ∃ st2, (∃ b, isPosted emptyState "a" "k" = .ok (st2, b)) ∧
      (∃ r, getLastRun emptyState "a" = .ok (st2, r)) ∧
      wfState st2 = true ∧
      ((feedRecords emptyState "a").isSome → st2 = emptyState) ∧
      (feedRecords emptyState "a" = none →
        isPosted emptyState "a" "k" = .ok (st2, false) ∧
        getLastRun emptyState "a" = .ok (st2, none) ∧
        ∃ fs feeds, emptyState = .obj fs ∧
          lookupField fs "feeds" = some (.obj feeds) ∧
          lookupField feeds "a" = none ∧
          st2 = .obj (setField fs "feeds"
            (.obj (setField feeds "a" emptyFeed)))) :=
  C7_reads_amended emptyState "a" "k" (by decide)

/-! ### C8 -/

/-- A document that parses as JSON, has the nominal structure, but
carries values the reads cannot digest. -/
def oddDoc : JValue :=
  .obj [("feeds", .obj [("src", .obj [("posted_guids", .arr [.obj []]),
    ("last_successful_run", .str "never")])])]

/-- C8 counterexample: a backing document that parses successfully can
still make the reads throw — a record without a guid key makes isPosted
raise KeyError, and a non-timestamp last_successful_run string makes
getLastRun raise ValueError; the store loads such a document as-is. -/
theorem C8_counterexample :
    openStore ⟨some (.json oddDoc), none, none⟩
      = .ok (oddDoc, ⟨some (.json oddDoc), none, none⟩) ∧
    isPosted oddDoc "src" "key" = .error (.keyError "guid") ∧
    getLastRun oddDoc "src" = .error .valueError :=
  ⟨rfl, rfl, rfl⟩

/-- C8 amended: the reads never throw on documents of the shape the
store itself writes (feeds dict of well-formed feed entries); for
JSON-parseable documents outside that shape they can raise. -/
theorem C8_reads_total_amended (st : JValue) (feed guid : String)
    (h : wfState st = true) :
    (∃ st2 b, isPosted st feed guid = .ok (st2, b)) ∧
    (∃ st2 r, getLastRun st feed = .ok (st2, r)) := by
  obtain ⟨fsR, feedsR, feR, esR, hens, hf, hlf, hpg, hes, hlr, hwf2, hrec⟩ :=
    ensure_shape feed h
  obtain ⟨b, hany⟩ := anyGuidEq_ok guid hes
  obtain ⟨r, hglr, _⟩ := getLastRun_shape feed hens hf hlf hlr
  exact ⟨⟨.obj fsR, b, isPosted_shape feed guid hens hf hlf hpg hany⟩,
    ⟨.obj fsR, r, hglr⟩⟩

/-- Witness for the amended C8 at concrete inputs. -/
theorem C8_reads_total_amended_witness :
    (∃ st2 b, isPosted (.obj [("feeds", .obj [("src", emptyFeed)])])
        "src" "key" = .ok (st2, b)) ∧
    (∃ st2 r, getLastRun (.obj [("feeds", .obj [("src", emptyFeed)])])
        "src" = .ok (st2, r)) :=
  C8_reads_total_amended (.obj [("feeds", .obj [("src", emptyFeed)])])
    "src" "key" (by decide)

/-! ### C6 -/

/-- A source state whose records list contains a bare number. -/
def badRecDoc : JValue :=
  .obj [("feeds", .obj [("src", .obj [("posted_guids", .arr [.num 5]),
    ("last_successful_run", .null)])])]

/-- C6 counterexample: a record that is not a dict makes eviction raise
an uncaught TypeError (the except clause in the source catches only
KeyError and ValueError), both when eviction is called directly and
through markPosted; cleanup does not complete. -/
theorem C6_counterexample :
    cleanupOldEntries badRecDoc 100 30 "src" 0 = .error .typeError ∧
    (markPosted badRecDoc ⟨some (.json badRecDoc), none, none⟩
        100 30 "src" "k" "u" 0 0 false false).1 = .error .typeError :=
  ⟨rfl, rfl⟩

/-- C6 amended: over records that are dicts whose posted_at value, if
present, is a string, eviction never fails — a record whose timestamp
is missing or unparseable is dropped and cleanup of the remaining
records completes; however a record of any other shape (a non-dict
record, or a non-string posted_at) raises an uncaught TypeError. -/
theorem C6_eviction_amended (fs feeds fe : List (String × JValue))
    (es : List JValue) (feed : String) (maxG maxAge now : Nat)
    (hf : lookupField fs "feeds" = some (.obj feeds))
    (hlf : lookupField feeds feed = some (.obj fe))
    (hpg : lookupField fe "posted_guids" = some (.arr es))
    (hsafe : ∀ e ∈ es, entrySafeTs e = true) :
    ∃ st2, cleanupOldEntries (.obj fs) maxG maxAge feed now = .ok st2 ∧
      ∃ recs, feedRecords st2 feed = some recs ∧
        ∀ e ∈ es, hasParseableTs e = false → e ∉ recs := by
  refine ⟨_, cleanup_records feed maxG maxAge now hf hlf hpg hsafe,
    _, feedRecords_set _ _ _ _ _, ?_⟩
  intro e he hbad hmem
  have h1 : e ∈ sortDesc (es.filter (keptByAge (cutoffOf now maxAge))) :=
    List.mem_of_mem_take hmem
  have h2 : e ∈ es.filter (keptByAge (cutoffOf now maxAge)) :=
    mem_sortDesc.mp h1
  have h3 : keptByAge (cutoffOf now maxAge) e = true :=
    (List.mem_filter.mp h2).2
  rw [hasParseableTs_of_kept h3] at hbad
  cases hbad

/-- A record carrying an unparseable timestamp string. -/
def badTsRec : JValue := .obj [("posted_at", .str "zzz")]

/-- Witness for the amended C6 at concrete inputs. -/
theorem C6_eviction_amended_witness :
    ∃ st2, cleanupOldEntries (.obj [("feeds", .obj [("src", .obj
        [("posted_guids", .arr [badTsRec, mkEntry "g" "u" 5]),
         ("last_successful_run", .null)])])]) 100 1 "src" 6 = .ok st2 ∧
      ∃ recs, feedRecords st2 "src" = some recs ∧
        ∀ e ∈ [badTsRec, mkEntry "g" "u" 5],
          hasParseableTs e = false → e ∉ recs :=
  C6_eviction_amended
    [("feeds", .obj [("src", .obj [("posted_guids",
      .arr [badTsRec, mkEntry "g" "u" 5]), ("last_successful_run", .null)])])]
    [("src", .obj [("posted_guids", .arr [badTsRec, mkEntry "g" "u" 5]),
      ("last_successful_run", .null)])]
    [("posted_guids", .arr [badTsRec, mkEntry "g" "u" 5]),
      ("last_successful_run", .null)]
    [badTsRec, mkEntry "g" "u" 5] "src" 100 1 6
    (by rfl) (by rfl) (by rfl) (by decide)

/-! ### C5 -/

/-- Inverting a successful markPosted down to its final cleanup call. -/
theorem markPostedState_ok_inv {st st2 : JValue} {maxG maxAge tE tC : Nat}
    {feed guid uri : String}
    (h : markPostedState st maxG maxAge feed guid uri tE tC = .ok st2) :
    ∃ stMid, cleanupOldEntries stMid maxG maxAge feed tC = .ok st2 := by
  unfold markPostedState at h
  obtain ⟨st1, h1, h⟩ := except_bind_ok h
  obtain ⟨feeds, h2, h⟩ := except_bind_ok h
  obtain ⟨fe, h3, h⟩ := except_bind_ok h
  obtain ⟨pg, h4, h⟩ := except_bind_ok h
  obtain ⟨pg2, h5, h⟩ := except_bind_ok h
  obtain ⟨fe2, h6, h⟩ := except_bind_ok h
  obtain ⟨feeds2, h7, h⟩ := except_bind_ok h
  obtain ⟨stM, h8, h⟩ := except_bind_ok h
  exact ⟨stM, h⟩

/-- C5: whenever eviction completes for a source — called directly, or
as the final step of a successful markPosted — the source afterwards
holds at most maxCount records and each carries a parseable timestamp
no older than now minus maxAgeDays (the code even guarantees strictly
newer). -/
theorem C5_bounded_retention (st st2 st3 : JValue) (maxG maxAge now tE : Nat)
    (feed guid uri : String) :
    (cleanupOldEntries st maxG maxAge feed now = .ok st2 →
      ∃ recs, feedRecords st2 feed = some recs ∧ recs.length ≤ maxG ∧
        ∀ e ∈ recs, ∃ s t, e.getItem "posted_at" = .ok (.str s) ∧
          parseIso s = some t ∧ cutoffOf now maxAge ≤ (t : Int)) ∧
    (markPostedState st maxG maxAge feed guid uri tE now = .ok st3 →
      ∃ recs, feedRecords st3 feed = some recs ∧ recs.length ≤ maxG ∧
        ∀ e ∈ recs, ∃ s t, e.getItem "posted_at" = .ok (.str s) ∧
          parseIso s = some t ∧ cutoffOf now maxAge ≤ (t : Int)) := by
  have main : ∀ {sta stb : JValue},
      cleanupOldEntries sta maxG maxAge feed now = .ok stb →
      ∃ recs, feedRecords stb feed = some recs ∧ recs.length ≤ maxG ∧
        ∀ e ∈ recs, ∃ s t, e.getItem "posted_at" = .ok (.str s) ∧
          parseIso s = some t ∧ cutoffOf now maxAge ≤ (t : Int) := by
    intro sta stb h
    obtain ⟨entries, fl, hfl, hrec⟩ := cleanup_ok_inv h
    refine ⟨_, hrec, ?_, ?_⟩
    · rw [List.length_take]
      exact min_le_left _ _
    · intro e he
      have h1 := List.mem_of_mem_take he
      have h2 := mem_sortDesc.mp h1
      have h3 := (filterLoop_mem _ hfl e h2).2
      obtain ⟨str1, t, hget, hp, hc⟩ := keptByAge_elim h3
      exact ⟨str1, t, hget, hp, le_of_lt hc⟩
  constructor
  · exact fun h => main h
  · intro h
    obtain ⟨stM, hM⟩ := markPostedState_ok_inv h
    exact main hM

/-- Witness for C5 at concrete inputs (through markPosted). -/
theorem C5_bounded_retention_witness :
    ∃ recs, feedRecords oneMarkState "src" = some recs ∧ recs.length ≤ 100 ∧
      ∀ e ∈ recs, ∃ s t, e.getItem "posted_at" = .ok (.str s) ∧
        parseIso s = some t ∧ cutoffOf 8 30 ≤ (t : Int) :=
  (C5_bounded_retention emptyState oneMarkState oneMarkState 100 30 8 7
    "src" "key" "uri").2 (by rfl)

/-! ### C3 -/

/-- The canonical single-feed state the store builds up while one
source is marked repeatedly. -/
def encState (feed : String) (recs : List JValue) : JValue :=
  .obj [("feeds", .obj [(feed, .obj [("posted_guids", .arr recs),
    ("last_successful_run", .null)])])]

theorem feedRecords_enc (feed : String) (recs : List JValue) :
    feedRecords (encState feed recs) feed = some recs := by
  simp [feedRecords, encState, lookupField]

theorem ensure_enc (feed : String) (recs : List JValue) :
    ensureFeedExists (encState feed recs) feed = .ok (encState feed recs) :=
  ensure_present feed
    (show lookupField [("feeds", JValue.obj [(feed, JValue.obj
        [("posted_guids", JValue.arr recs), ("last_successful_run",
        JValue.null)])])] "feeds" = some (JValue.obj [(feed, JValue.obj
        [("posted_guids", JValue.arr recs), ("last_successful_run",
        JValue.null)])]) from by simp [lookupField])
    (show (lookupField [(feed, JValue.obj [("posted_guids", JValue.arr recs),
        ("last_successful_run", JValue.null)])] feed).isSome = true
      from by simp [lookupField])

theorem ensure_empty (feed : String) :
    ensureFeedExists emptyState feed = .ok (encState feed []) := by
  have h := ensure_absent feed
    (show lookupField [("feeds", JValue.obj [])] "feeds" = some (.obj [])
      from by simp [lookupField])
    (show lookupField ([] : List (String × JValue)) feed = none from rfl)
  simpa [emptyState, encState, setField, emptyFeed] using h

/-- Cleanup on the canonical state: filter by age, sort, cap. -/
theorem cleanup_enc (feed : String) (maxG maxAge now : Nat)
    (recs : List JValue) (hsafe : ∀ e ∈ recs, entrySafeTs e = true) :
    cleanupOldEntries (encState feed recs) maxG maxAge feed now =
      .ok (encState feed
        ((sortDesc (recs.filter (keptByAge (cutoffOf now maxAge)))).take maxG)) := by
  have h := cleanup_records feed maxG maxAge now
    (show lookupField [("feeds", JValue.obj [(feed, JValue.obj
        [("posted_guids", JValue.arr recs), ("last_successful_run",
        JValue.null)])])] "feeds" = some (JValue.obj [(feed, JValue.obj
        [("posted_guids", JValue.arr recs), ("last_successful_run",
        JValue.null)])]) from by simp [lookupField])
    (show lookupField [(feed, JValue.obj [("posted_guids", JValue.arr recs),
        ("last_successful_run", JValue.null)])] feed = some (JValue.obj
        [("posted_guids", JValue.arr recs), ("last_successful_run",
        JValue.null)]) from by simp [lookupField])
    (show lookupField [("posted_guids", JValue.arr recs),
        ("last_successful_run", JValue.null)] "posted_guids"
        = some (JValue.arr recs) from by simp [lookupField])
    hsafe
  rw [show encState feed recs = JValue.obj [("feeds", JValue.obj [(feed,
    JValue.obj [("posted_guids", JValue.arr recs),
    ("last_successful_run", JValue.null)])])] from rfl, h]
  simp [encState, setField]

/-- Marking on the canonical state reaches cleanup with the appended
records. -/
theorem markPostedState_enc_mid (feed guid uri : String)
    (maxG maxAge tE tC : Nat) (recs : List JValue) :
    markPostedState (encState feed recs) maxG maxAge feed guid uri tE tC =
      cleanupOldEntries (encState feed (recs ++ [mkEntry guid uri tE]))
        maxG maxAge feed tC := by
  have h := markPostedState_explicit feed guid uri maxG maxAge tE tC
    (ensure_enc feed recs)
    (show lookupField [("feeds", JValue.obj [(feed, JValue.obj
        [("posted_guids", JValue.arr recs), ("last_successful_run",
        JValue.null)])])] "feeds" = some (JValue.obj [(feed, JValue.obj
        [("posted_guids", JValue.arr recs), ("last_successful_run",
        JValue.null)])]) from by simp [lookupField])
    (show lookupField [(feed, JValue.obj [("posted_guids", JValue.arr recs),
        ("last_successful_run", JValue.null)])] feed = some (JValue.obj
        [("posted_guids", JValue.arr recs), ("last_successful_run",
        JValue.null)]) from by simp [lookupField])
    (show lookupField [("posted_guids", JValue.arr recs),
        ("last_successful_run", JValue.null)] "posted_guids"
        = some (JValue.arr recs) from by simp [lookupField])
  rw [h]
  congr 1
  simp [encState, setField]

/-- One mark on a strictly descending in-window record list: the new
entry is kept, lands at the head, and the cap keeps the first maxCount. -/
theorem markPostedState_enc (feed guid uri : String) (maxG maxAge t : Nat)
    (recs : List JValue)
    (hkept : ∀ e ∈ recs, keptByAge (cutoffOf t maxAge) e = true)
    (hkeys : ∀ e ∈ recs, entryKey e < isoformat t)
    (hsorted : recs.Pairwise (fun a b => entryKey b < entryKey a))
    (hself : cutoffOf t maxAge < (t : Int)) :
    markPostedState (encState feed recs) maxG maxAge feed guid uri t t =
      .ok (encState feed ((mkEntry guid uri t :: recs).take maxG)) := by
  rw [markPostedState_enc_mid]
  have hsafe : ∀ e ∈ recs ++ [mkEntry guid uri t], entrySafeTs e = true := by
    intro e he
    rcases List.mem_append.mp he with h | h
    · exact entrySafeTs_of_kept (hkept e h)
    · rw [List.mem_singleton.mp h]
      exact entrySafeTs_of_wfEntry (wfEntry_mkEntry guid uri t)
  rw [cleanup_enc feed maxG maxAge t (recs ++ [mkEntry guid uri t]) hsafe]
  have hfilter : (recs ++ [mkEntry guid uri t]).filter
      (keptByAge (cutoffOf t maxAge)) = recs ++ [mkEntry guid uri t] := by
    apply List.filter_eq_self.mpr
    intro a ha
    rcases List.mem_append.mp ha with h | h
    · exact hkept a h
    · rw [List.mem_singleton.mp h]
      exact keptByAge_mkEntry guid uri t hself
  have hsort : sortDesc (recs ++ [mkEntry guid uri t])
      = mkEntry guid uri t :: recs := by
    apply sortDesc_strict_unique (List.perm_append_singleton _ _)
    refine List.pairwise_cons.mpr ⟨?_, hsorted⟩
    intro y hy
    rw [entryKey_mkEntry]
    exact hkeys y hy
  rw [hfilter, hsort]

/-- A whole aggregator run: mark each (key, time) pair in order, each
mark reading the clock at its own time (as `mark_posted` does). -/
def markRun (maxG maxAge : Nat) (feed uri : String) :
    JValue → List (String × Nat) → Except PyErr JValue
  | st, [] => .ok st
  | st, (g, t) :: rest => do
    let st2 ← markPostedState st maxG maxAge feed g uri t t
    markRun maxG maxAge feed uri st2 rest

/-- The first mark of a run does not care whether the state is the fresh
one or its canonical empty form: ensure produces the same document. -/
theorem markPostedState_empty_eq (feed guid uri : String)
    (maxG maxAge tE tC : Nat) :
    markPostedState emptyState maxG maxAge feed guid uri tE tC =
      markPostedState (encState feed []) maxG maxAge feed guid uri tE tC := by
  unfold markPostedState
  rw [ensure_empty, ensure_enc]

/-- Invariant of the run: after marking `done ++ rest` at string-increasing
times that all lie inside every later retention window, the state holds
the most recent `maxCount` inserted records, newest first. -/
theorem markRun_enc (feed uri : String) (maxG maxAge : Nat) (hG : 1 ≤ maxG) :
    ∀ (rest done : List (String × Nat)),
      (done ++ rest).Pairwise (fun a b => isoformat a.2 < isoformat b.2) →
      (∀ a ∈ done ++ rest, ∀ b ∈ done ++ rest,
        cutoffOf b.2 maxAge < ((a.2 : Nat) : Int)) →
      markRun maxG maxAge feed uri
        (encState feed
          (((done.map (fun p => mkEntry p.1 uri p.2)).reverse).take maxG))
        rest
      = .ok (encState feed
          ((((done ++ rest).map (fun p => mkEntry p.1 uri p.2)).reverse).take
            maxG))
  | [], done, hinc, hwin => by simp [markRun]
  | (g, t) :: rest, done, hinc, hwin => by
    have hmemgt : (g, t) ∈ done ++ (g, t) :: rest :=
      List.mem_append_right _ (List.mem_cons_self _ _)
    have hcross := (List.pairwise_append.mp hinc).2.2
    have hkept : ∀ e ∈ ((done.map (fun p => mkEntry p.1 uri p.2)).reverse).take
        maxG, keptByAge (cutoffOf t maxAge) e = true := by
      intro e he
      have h1 := List.mem_reverse.mp (List.mem_of_mem_take he)
      obtain ⟨p, hp, hpe⟩ := List.mem_map.mp h1
      rw [← hpe]
      exact keptByAge_mkEntry _ _ _
        (hwin p (List.mem_append_left _ hp) (g, t) hmemgt)
    have hkeys : ∀ e ∈ ((done.map (fun p => mkEntry p.1 uri p.2)).reverse).take
        maxG, entryKey e < isoformat t := by
      intro e he
      have h1 := List.mem_reverse.mp (List.mem_of_mem_take he)
      obtain ⟨p, hp, hpe⟩ := List.mem_map.mp h1
      rw [← hpe, entryKey_mkEntry]
      exact hcross p hp (g, t) (List.mem_cons_self _ _)
    have hsorted : (((done.map (fun p => mkEntry p.1 uri p.2)).reverse).take
        maxG).Pairwise (fun a b => entryKey b < entryKey a) := by
      refine List.Pairwise.sublist (List.take_sublist _ _) ?_
      rw [List.pairwise_reverse]
      rw [List.pairwise_map]
      refine ((List.pairwise_append.mp hinc).1).imp ?_
      intro a b hab
      rw [entryKey_mkEntry, entryKey_mkEntry]
      exact hab
    have hself : cutoffOf t maxAge < ((t : Nat) : Int) :=
      hwin (g, t) hmemgt (g, t) hmemgt
    have hstep := markPostedState_enc feed g uri maxG maxAge t _
      hkept hkeys hsorted hself
    have hinc2 : ((done ++ [(g, t)]) ++ rest).Pairwise
        (fun a b => isoformat a.2 < isoformat b.2) := by
      rw [List.append_assoc]
      exact hinc
    have hwin2 : ∀ a ∈ (done ++ [(g, t)]) ++ rest,
        ∀ b ∈ (done ++ [(g, t)]) ++ rest,
        cutoffOf b.2 maxAge < ((a.2 : Nat) : Int) := by
      rw [List.append_assoc]
      exact hwin
    have htail := markRun_enc feed uri maxG maxAge hG rest (done ++ [(g, t)])
      hinc2 hwin2
    have hlist : (mkEntry g uri t ::
        ((done.map (fun p => mkEntry p.1 uri p.2)).reverse).take maxG).take maxG
        = (((done ++ [(g, t)]).map
            (fun p => mkEntry p.1 uri p.2)).reverse).take maxG := by
      obtain ⟨m, rfl⟩ : ∃ m, maxG = m + 1 :=
        ⟨maxG - 1, (Nat.succ_pred_eq_of_pos hG).symm⟩
      rw [List.map_append, List.reverse_append]
      simp only [List.map_cons, List.map_nil, List.reverse_cons,
        List.reverse_nil, List.nil_append, List.singleton_append]
      rw [List.take_succ_cons, List.take_succ_cons, List.take_take]
      rw [Nat.min_eq_left (Nat.le_succ m)]
    simp only [markRun]
    rw [hstep]
    simp only [Bind.bind, Except.bind]
    rw [hlist, htail, List.append_assoc]
    rfl

/-- A source whose single record sits exactly at the age cutoff. -/
def boundaryDoc : JValue :=
  .obj [("feeds", .obj [("src", .obj [("posted_guids",
    .arr [mkEntry "g" "u" 0]), ("last_successful_run", .null)])])]

/-- C3 counterexample: with maxAgeDays 1 and the clock one day after the
epoch, the cutoff is exactly 0 and the record stamped 0 parses to the
cutoff instant — yet eviction drops it (the source keeps only strictly
newer records), while the claim says a record equal to the cutoff is
not dropped; the count cap (100) plays no role for a single record. -/
theorem C3_counterexample :
    cutoffOf 86400000000 1 = (0 : Int) ∧
    parseIso (isoformat 0) = some 0 ∧
    ∃ st2, cleanupOldEntries boundaryDoc 100 1 "src" 86400000000 = .ok st2 ∧
      feedRecords st2 "src" = some [] := by
  exact ⟨rfl, rfl, _, rfl, rfl⟩

/-- C3 amended: eviction first applies the age step, dropping exactly
the records whose parseable postedAt is at or before now minus
maxAgeDays (only strictly newer records survive; a record exactly at
the cutoff is dropped), then stable-sorts the remainder descending by
postedAt and keeps the first maxCount.  Consequently a run that inserts
distinct keys at string-increasing times inside the retention window
ends with exactly the min(inserted, maxCount) most recent records,
newest first — for maxCount + 50 insertions, exactly the maxCount most
recent. -/
theorem C3_eviction_amended
    (fs feeds fe : List (String × JValue)) (es : List JValue)
    (feed uri : String) (maxG maxAge now : Nat) (L : List (String × Nat))
    (hf : lookupField fs "feeds" = some (.obj feeds))
    (hlf : lookupField feeds feed = some (.obj fe))
    (hpg : lookupField fe "posted_guids" = some (.arr es))
    (hsafe : ∀ e ∈ es, entrySafeTs e = true)
    (hG : 1 ≤ maxG) (hL : L ≠ [])
    (hinc : L.Pairwise (fun a b => isoformat a.2 < isoformat b.2))
    (hwin : ∀ a ∈ L, ∀ b ∈ L, cutoffOf b.2 maxAge < ((a.2 : Nat) : Int)) :
    (∃ st2, cleanupOldEntries (.obj fs) maxG maxAge feed now = .ok st2 ∧
      feedRecords st2 feed = some
        ((sortDesc (es.filter (keptByAge (cutoffOf now maxAge)))).take maxG) ∧
      ∀ e ∈ es, (keptByAge (cutoffOf now maxAge) e = true ↔
        ∃ s t, e.getItem "posted_at" = .ok (.str s) ∧ parseIso s = some t ∧
          cutoffOf now maxAge < (t : Int))) ∧
    (∃ stF, markRun maxG maxAge feed uri emptyState L = .ok stF ∧
      feedRecords stF feed = some
        (((L.map (fun p => mkEntry p.1 uri p.2)).reverse).take maxG) ∧
      (maxG ≤ L.length →
        (((L.map (fun p => mkEntry p.1 uri p.2)).reverse).take maxG).length
          = maxG)) := by
  constructor
  · refine ⟨_, cleanup_records feed maxG maxAge now hf hlf hpg hsafe,
      feedRecords_set _ _ _ _ _, ?_⟩
    intro e he
    constructor
    · exact keptByAge_elim
    · rintro ⟨s, t, hget, hp, hc⟩
      simp [keptByAge, hget, fromisoformatJ, hp, hc]
  · match L, hL with
    | (g0, t0) :: rest, _ =>
      have hrun := markRun_enc feed uri maxG maxAge hG ((g0, t0) :: rest) []
        hinc hwin
      have heq : markRun maxG maxAge feed uri emptyState ((g0, t0) :: rest)
          = markRun maxG maxAge feed uri (encState feed []) ((g0, t0) :: rest) := by
        simp only [markRun]
        rw [markPostedState_empty_eq]
      refine ⟨_, ?_, feedRecords_enc _ _, ?_⟩
      · rw [heq]
        have h0 : encState feed ((([] : List (String × Nat)).map
            (fun p => mkEntry p.1 uri p.2)).reverse.take maxG)
            = encState feed [] := by simp
        rw [← h0]
        exact hrun
      · intro hle
        rw [List.length_take, List.length_reverse, List.length_map]
        omega

/-- Witness for the amended C3 at concrete inputs: two inserts with
maxCount 1 keep only the newer one. -/
theorem C3_eviction_amended_witness :
    (∃ st2, cleanupOldEntries (.obj [("feeds", .obj [("src", .obj
        [("posted_guids", .arr []), ("last_successful_run", .null)])])])
        1 1 "src" 5 = .ok st2 ∧
      feedRecords st2 "src" = some
        ((sortDesc (([] : List JValue).filter (keptByAge (cutoffOf 5 1)))).take 1) ∧
      ∀ e ∈ ([] : List JValue), (keptByAge (cutoffOf 5 1) e = true ↔
        ∃ s t, e.getItem "posted_at" = .ok (.str s) ∧ parseIso s = some t ∧
          cutoffOf 5 1 < (t : Int))) ∧
    (∃ stF, markRun 1 1 "src" "u" emptyState [("a", 3), ("b", 4)] = .ok stF ∧
      feedRecords stF "src" = some
        ((([("a", 3), ("b", 4)].map
          (fun p => mkEntry p.1 "u" p.2)).reverse).take 1) ∧
      (1 ≤ [("a", 3), ("b", 4)].length →
        ((([("a", 3), ("b", 4)].map
          (fun p => mkEntry p.1 "u" p.2)).reverse).take 1).length = 1)) := by
  exact C3_eviction_amended
    [("feeds", .obj [("src", .obj [("posted_guids", .arr []),
      ("last_successful_run", .null)])])]
    [("src", .obj [("posted_guids", .arr []),
      ("last_successful_run", .null)])]
    [("posted_guids", .arr []), ("last_successful_run", .null)]
    [] "src" "u" 1 1 5 [("a", 3), ("b", 4)]
    (by rfl) (by rfl) (by rfl) (by decide) (by decide) (by decide)
    (List.pairwise_cons.mpr ⟨fun b hb => by
        rw [List.mem_singleton.mp hb]
        exact string_lt_of_data_lt (by decide),
      List.pairwise_singleton _ _⟩)
    (by decide)

/-- After the mark pipeline rebuilt the document, the fresh record heads
the stored list and the membership test finds it at once. -/
theorem isPosted_after_set (A B C : List (String × JValue))
    (feed guid uri : String) (tE : Nat) (tail : List JValue) :
    isPosted (.obj (setField A "feeds" (.obj (setField B feed (.obj (setField C
      "posted_guids" (.arr (mkEntry guid uri tE :: tail)))))))) feed guid
      = .ok (.obj (setField A "feeds" (.obj (setField B feed (.obj (setField C
        "posted_guids" (.arr (mkEntry guid uri tE :: tail))))))), true) :=
  isPosted_shape feed guid
    (ensure_present feed
      (lookupField_setField_self A "feeds" _)
      (by rw [lookupField_setField_self]; rfl))
    (lookupField_setField_self A "feeds" _)
    (lookupField_setField_self B feed _)
    (lookupField_setField_self C "posted_guids" _)
    (by simp [anyGuidEq, mkEntry_guid, Bind.bind, Except.bind])

/-! ### C1 -/

/-- C1: if markPosted returns successfully, isPosted is true for the new
key immediately and on a fresh store instance loaded from the saved
path.  The hypotheses pin down that the eviction run inside the call
does not itself remove the fresh record: the cap allows at least one
record, the new timestamp lies inside the retention window measured at
the cleanup clock, and its string is strictly newer than every existing
record of the source. -/
theorem C1_at_most_once (st : JValue) (fs : FSModel)
    (maxG maxAge : Nat) (feed guid uri : String) (tE tC : Nat)
    (hwf : wfState st = true) (hG : 1 ≤ maxG)
    (hfresh : ∀ e ∈ (feedRecords st feed).getD [], entryKey e < isoformat tE)
    (hage : cutoffOf tC maxAge < ((tE : Nat) : Int)) :
    ∃ st2 fs2, markPosted st fs maxG maxAge feed guid uri tE tC false false
        = (.ok st2, fs2) ∧
      (∃ stq, isPosted st2 feed guid = .ok (stq, true)) ∧
      fs2.stateFile = some (.json st2) ∧
      openStore fs2 = .ok (st2, fs2) ∧
      (∀ stL fsL, openStore fs2 = .ok (stL, fsL) →
        ∃ stq2, isPosted stL feed guid = .ok (stq2, true)) := by
  obtain ⟨fsR, feedsR, feR, esR, hens, hf, hlf, hpg, hes, hlr, hwf2, hrec⟩ :=
    ensure_shape feed hwf
  have hexp := markPostedState_explicit feed guid uri maxG maxAge tE tC
    hens hf hlf hpg
  have hsafeM : ∀ e ∈ esR ++ [mkEntry guid uri tE], entrySafeTs e = true := by
    intro e he
    rcases List.mem_append.mp he with h | h
    · exact entrySafeTs_of_wfEntry (hes e h)
    · rw [List.mem_singleton.mp h]
      exact entrySafeTs_of_wfEntry (wfEntry_mkEntry guid uri tE)
  have hclean := cleanup_records feed maxG maxAge tC
    (lookupField_setField_self fsR "feeds" (.obj (setField feedsR feed
      (.obj (setField feR "posted_guids"
        (.arr (esR ++ [mkEntry guid uri tE])))))))
    (lookupField_setField_self feedsR feed
      (.obj (setField feR "posted_guids"
        (.arr (esR ++ [mkEntry guid uri tE])))))
    (lookupField_setField_self feR "posted_guids"
      (.arr (esR ++ [mkEntry guid uri tE])))
    hsafeM
  have hmark : markPostedState st maxG maxAge feed guid uri tE tC
      = .ok (.obj (setField (setField fsR "feeds" (.obj (setField feedsR feed
        (.obj (setField feR "posted_guids"
          (.arr (esR ++ [mkEntry guid uri tE]))))))) "feeds"
        (.obj (setField (setField feedsR feed (.obj (setField feR
          "posted_guids" (.arr (esR ++ [mkEntry guid uri tE]))))) feed
          (.obj (setField (setField feR "posted_guids"
            (.arr (esR ++ [mkEntry guid uri tE]))) "posted_guids"
            (.arr ((sortDesc ((esR ++ [mkEntry guid uri tE]).filter
              (keptByAge (cutoffOf tC maxAge)))).take maxG)))))))) := by
    rw [hexp, hclean]
  -- the fresh record heads the sorted filtered list
  have hnewkept : keptByAge (cutoffOf tC maxAge) (mkEntry guid uri tE) = true :=
    keptByAge_mkEntry guid uri tE hage
  have hnewmem : mkEntry guid uri tE ∈ (esR ++ [mkEntry guid uri tE]).filter
      (keptByAge (cutoffOf tC maxAge)) :=
    List.mem_filter.mpr
      ⟨List.mem_append_right _ (List.mem_singleton_self _), hnewkept⟩
  have hmax : ∀ y ∈ (esR ++ [mkEntry guid uri tE]).filter
      (keptByAge (cutoffOf tC maxAge)), y ≠ mkEntry guid uri tE →
      entryKey y < entryKey (mkEntry guid uri tE) := by
    intro y hy hne
    rcases List.mem_append.mp (List.mem_of_mem_filter hy) with h | h
    · rw [entryKey_mkEntry]
      rw [hrec] at h
      exact hfresh y h
    · exact absurd (List.mem_singleton.mp h) hne
  obtain ⟨restq, hsorthead⟩ := sortDesc_head hnewmem hmax
  obtain ⟨m, hm⟩ : ∃ m, maxG = m + 1 :=
    ⟨maxG - 1, (Nat.succ_pred_eq_of_pos hG).symm⟩
  have hkept : (sortDesc ((esR ++ [mkEntry guid uri tE]).filter
      (keptByAge (cutoffOf tC maxAge)))).take maxG
      = mkEntry guid uri tE :: restq.take m := by
    rw [hsorthead, hm, List.take_succ_cons]
  rw [hkept] at hmark
  set tail := restq.take m with htail
  set stF := JValue.obj (setField (setField fsR "feeds" (JValue.obj (setField
    feedsR feed (JValue.obj (setField feR "posted_guids" (JValue.arr (esR ++
    [mkEntry guid uri tE]))))))) "feeds" (JValue.obj (setField (setField feedsR
    feed (JValue.obj (setField feR "posted_guids" (JValue.arr (esR ++ [mkEntry
    guid uri tE]))))) feed (JValue.obj (setField (setField feR "posted_guids"
    (JValue.arr (esR ++ [mkEntry guid uri tE]))) "posted_guids" (JValue.arr
    (mkEntry guid uri tE :: tail))))))) with hstF
  have hip : isPosted stF feed guid = .ok (stF, true) := by
    rw [hstF]
    exact isPosted_after_set _ _ _ feed guid uri tE tail
  refine ⟨stF, { fs with stateFile := some (.json stF), tempFile := none },
    ?_, ⟨stF, hip⟩, rfl, rfl, ?_⟩
  · unfold markPosted
    rw [hmark]
    rfl
  · intro stL fsL h
    have hp : (stF,
        ({ fs with
            stateFile := some (.json stF), tempFile := none } : FSModel))
        = (stL, fsL) := Except.ok.inj h
    have hL : stL = stF := (congrArg Prod.fst hp).symm
    rw [hL]
    exact ⟨stF, hip⟩

/-- Witness for C1 at concrete inputs. -/
theorem C1_at_most_once_witness :
    ∃ st2 fs2, markPosted emptyState ⟨none, none, none⟩ 1 1 "f" "g" "u" 5 5
        false false = (.ok st2, fs2) ∧
      (∃ stq, isPosted st2 "f" "g" = .ok (stq, true)) ∧
      fs2.stateFile = some (.json st2) ∧
      openStore fs2 = .ok (st2, fs2) ∧
      (∀ stL fsL, openStore fs2 = .ok (stL, fsL) →
        ∃ stq2, isPosted stL "f" "g" = .ok (stq2, true)) :=
  C1_at_most_once emptyState ⟨none, none, none⟩ 1 1 "f" "g" "u" 5 5
    (by decide) (by decide) (by decide) (by decide)

end DedupStore
